import Mathlib

/-!
Shallow embedding of the Entity Resolution Engine
(`apps/entity-service/app/services/entity_resolution.py`).

External collaborators (fuzzywuzzy `fuzz.ratio`, the sentence-transformer
`encode`, sklearn `cosine_similarity`, DBSCAN `fit_predict`) are modelled as
oracle parameters collected in `ResolveEnv`; the Neo4j entity store and the
Redis embedding cache are modelled as explicit state (`ResolutionState`)
threaded through the operations.  Timestamps (`created_at` / `updated_at`)
are omitted: they carry real wall-clock time and no property here depends
on them.
-/

deriving instance DecidableEq for Except

namespace EntityRes

/-- Python attribute values, restricted to scalars and lists of scalars
(the merge logic in `_merge_entity_data` only ever distinguishes
"list" from "non-list" and Python truthiness). -/
inductive PyScalar where
  | str (s : String)
  | int (n : Int)
  | bool (b : Bool)
  | null
  deriving DecidableEq, Repr

inductive PyVal where
  | scalar (v : PyScalar)
  | list (xs : List PyScalar)
  deriving DecidableEq, Repr

/-- Python truthiness (`not value`) of an attribute value. -/
def PyVal.isFalsy : PyVal → Bool
  | .scalar (.str s) => s = ""
  | .scalar (.int n) => n = 0
  | .scalar (.bool b) => !b
  | .scalar .null => true
  | .list xs => xs.isEmpty

/-- Python `str()` of a scalar. -/
def PyScalar.pyStr : PyScalar → String
  | .str s => s
  | .int n => toString n
  | .bool b => if b then "True" else "False"
  | .null => "None"

/-- Python `repr()` of a scalar, as used for elements inside `str(list)`.
String escaping is not modelled. -/
def PyScalar.pyRepr : PyScalar → String
  | .str s => "'" ++ s ++ "'"
  | v => v.pyStr

/-- Python `str()` of an attribute value (used by the f-string
`f"{attr}: {value}"` in the embedding-text construction). -/
def PyVal.pyStr : PyVal → String
  | .scalar v => v.pyStr
  | .list xs => "[" ++ String.intercalate ", " (xs.map PyScalar.pyRepr) ++ "]"

/-- Attribute maps: insertion-ordered string-keyed dictionaries
(Python `dict`), modelled as association lists with unique keys. -/
abbrev Attrs := List (String × PyVal)

/-- Python `d.get(k)` / `k in d` lookup (first binding). -/
def dictGet? (d : Attrs) (k : String) : Option PyVal :=
  (d.find? fun p => decide (p.1 = k)).map Prod.snd

/-- Python `d[k] = v`: replace in place if the key is present (dicts keep
the original insertion position on update), else append. -/
def dictSet (d : Attrs) (k : String) (v : PyVal) : Attrs :=
  if d.any fun p => decide (p.1 = k) then
    d.map fun p => if p.1 = k then (k, v) else p
  else d ++ [(k, v)]

/-- Modelled from the spec: the `EntityType` enum lives in
`app/models/entity.py`, which is absent from the sources; the spec gives
the members PERSON, ORGANIZATION, ACCOUNT.  Values are the wire strings
used to construct the enum from `entity_data["entity_type"]`. -/
inductive EntityType where
  | person
  | organization
  | account
  deriving DecidableEq, Repr

def EntityType.value : EntityType → String
  | .person => "person"
  | .organization => "organization"
  | .account => "account"

/-- Python `EntityType(s)`: `some` member on a recognized value, `none`
models the `ValueError` raised on an unrecognized one. -/
def EntityType.ofString (s : String) : Option EntityType :=
  if s = "person" then some .person
  else if s = "organization" then some .organization
  else if s = "account" then some .account
  else none

/-- Entity matching methods (`MatchMethod`). -/
inductive MatchMethod where
  | exact
  | fuzzy
  | semantic
  | hybrid
  | ml_clustering
  deriving DecidableEq, Repr

/-- A node of the Neo4j entity store.  `entity_type` is stored as its
string value, as in the graph properties. -/
structure StoredEntity where
  id : String
  name : String
  entity_type : String
  attributes : Attrs
  tenant_id : String
  cell_id : String
  deriving DecidableEq, Repr

/-- The entity payload kept in a cached-embeddings record. -/
structure EntityLite where
  id : String
  name : String
  attributes : Attrs
  deriving DecidableEq, Repr

/-- One cached-embeddings record (`{"entities": ..., "embeddings": ...}`). -/
structure CacheData where
  entities : List EntityLite
  embeddings : List (List ℚ)
  deriving DecidableEq, Repr

/-- `EntityCandidate` (dataclass in the source). -/
structure EntityCandidate where
  entity_id : String
  name : String
  entity_type : EntityType
  attributes : Attrs
  embedding : Option (List ℚ) := none
  source_confidence : ℚ := 1
  deriving DecidableEq, Repr

/-- Modelled from the spec: the `EntityMatch` record lives in
`app/models/entity.py`, absent from the sources; its fields are exactly
those the service constructs it with.  The explanatory `match_details`
payload is omitted (never consulted by the engine). -/
structure EntityMatch where
  candidate_entity_id : String
  matched_entity_id : String
  confidence_score : ℚ
  match_method : MatchMethod
  deriving DecidableEq, Repr

/-- The `entity_data` request payload of `resolve_entity`.  `entity_type`
is the raw wire string, validated by `EntityType.ofString`. -/
structure EntityData where
  name : String
  entity_type : String
  attributes : Attrs := []
  confidence : ℚ := 1
  deriving DecidableEq, Repr

/-- The entity dictionary returned inside a resolution result. -/
structure EntityDict where
  id : String
  name : String
  entity_type : String
  attributes : Attrs
  tenant_id : String
  cell_id : String
  deriving DecidableEq, Repr

/-- `ResolutionOutcome`: the result dictionaries of `resolve_entity`,
keyed by their `action` field. -/
inductive Outcome where
  | matched (entity : EntityDict) (match_confidence : ℚ)
      (match_method : MatchMethod) (alternatives : List EntityMatch)
  | created (entity : EntityDict) (match_confidence : ℚ)
      (alternatives : List EntityMatch)
  | no_match (alternatives : List EntityMatch)
  | error (msg : String)
  deriving DecidableEq, Repr

/-- The external state a resolution request reads and writes: the Neo4j
store and the Redis embeddings cache (keyed by cache-key strings). -/
structure ResolutionState where
  store : List StoredEntity
  cache : List (String × CacheData)
  deriving DecidableEq, Repr

/-- Oracles for the external computations: fuzzywuzzy `fuzz.ratio`
(integer similarity in `[0,100]`), sklearn `cosine_similarity` of two
vectors, the sentence-transformer `encode` of one text (fallible: an
`Except.error` models the provider raising), and DBSCAN `fit_predict`
(one integer cluster label per sample, `-1` for noise). -/
structure ResolveEnv where
  fuzzScore : String → String → Nat
  cosSim : List ℚ → List ℚ → ℚ
  encode : String → Except String (List ℚ)
  fitPredict : List (List Nat) → List Int

/-- `self.similarity_threshold = 0.85`. -/
def similarity_threshold : ℚ := 85 / 100

/-- `self.fuzzy_threshold = 80`. -/
def fuzzy_threshold : Nat := 80

/-- The `important_attrs` list of `_generate_embedding` (candidate path). -/
def importantAttrsCandidate : List String :=
  ["address", "email", "phone", "business_name", "registration_number"]

/-- The `important_attrs` list of `_generate_and_cache_embeddings`
(stored-entity path). -/
def importantAttrsStored : List String :=
  ["address", "email", "phone", "business_name"]

/-- The `attr_texts` list: one `"key: value"` fragment per important key
that is present and truthy, in the fixed key order of `important`. -/
def attrFragments (important : List String) (attrs : Attrs) : List String :=
  important.filterMap fun a =>
    match dictGet? attrs a with
    | some v => if v.isFalsy then none else some (a ++ ": " ++ v.pyStr)
    | none => none

/-- The embedding text blob: the name, then — when the attribute dict is
truthy and at least one important attribute is present and truthy —
a space and the space-joined `"key: value"` fragments. -/
def embeddingText (important : List String) (name : String) (attrs : Attrs) : String :=
  if attrs.isEmpty then name
  else
    let attr_texts := attrFragments important attrs
    if attr_texts.isEmpty then name
    else name ++ " " ++ String.intercalate " " attr_texts

/-- `_generate_embedding`: encode the candidate's text blob.  The
`Except.error` case models the embedding provider raising. -/
def generate_embedding (env : ResolveEnv) (cand : EntityCandidate) :
    Except String (List ℚ) :=
  env.encode (embeddingText importantAttrsCandidate cand.name cand.attributes)

/-- The Cypher query of `_exact_match`: exact
`(name, entity_type, tenant_id, cell_id)` equality, `LIMIT 10`. -/
def exactQuery (store : List StoredEntity) (name ty tenant cell : String) :
    List StoredEntity :=
  (store.filter fun e =>
    decide (e.name = name ∧ e.entity_type = ty ∧
      e.tenant_id = tenant ∧ e.cell_id = cell)).take 10

/-- The Cypher query shared by `_fuzzy_match` (`LIMIT 100`),
`_generate_and_cache_embeddings` (`LIMIT 1000`) and
`_get_entities_for_clustering` (`LIMIT 500`): all entities of one
`(entity_type, tenant_id, cell_id)` scope, capped. -/
def typeQuery (store : List StoredEntity) (ty tenant cell : String)
    (limit : Nat) : List StoredEntity :=
  (store.filter fun e =>
    decide (e.entity_type = ty ∧ e.tenant_id = tenant ∧ e.cell_id = cell)).take limit

/-- `_exact_match`. -/
def exact_match (store : List StoredEntity) (cand : EntityCandidate)
    (tenant cell : String) : List EntityMatch :=
  (exactQuery store cand.name cand.entity_type.value tenant cell).map fun e =>
    { candidate_entity_id := cand.entity_id
      matched_entity_id := e.id
      confidence_score := 1
      match_method := .exact }

/-- Python `str.lower()`, character by character (ASCII letters; the
full Unicode case table is not modelled). -/
def pyLower (s : String) : String := String.mk (s.data.map Char.toLower)

/-- `_fuzzy_match`: score each same-scope entity with
`fuzz.ratio(candidate.name.lower(), record_name.lower())`, keep scores
`≥ fuzzy_threshold`, confidence `= similarity / 100.0`. -/
def fuzzy_match (env : ResolveEnv) (store : List StoredEntity)
    (cand : EntityCandidate) (tenant cell : String) : List EntityMatch :=
  (typeQuery store cand.entity_type.value tenant cell 100).filterMap fun e =>
    let similarity := env.fuzzScore (pyLower cand.name) (pyLower e.name)
    if fuzzy_threshold ≤ similarity then
      some { candidate_entity_id := cand.entity_id
             matched_entity_id := e.id
             confidence_score := (similarity : ℚ) / 100
             match_method := .fuzzy }
    else none

/-- The cache key `f"embeddings:{entity_type.value}:{tenant_id}:{cell_id}"`. -/
def cacheKey (ty : EntityType) (tenant cell : String) : String :=
  "embeddings:" ++ ty.value ++ ":" ++ tenant ++ ":" ++ cell

/-- Redis `get` on the modelled cache. -/
def cacheGet? (cache : List (String × CacheData)) (k : String) :
    Option CacheData :=
  (cache.find? fun p => decide (p.1 = k)).map Prod.snd

/-- Redis `setex` on the modelled cache (expiry not modelled; a fresh
write shadows an old entry). -/
def cacheSet (cache : List (String × CacheData)) (k : String)
    (d : CacheData) : List (String × CacheData) :=
  (k, d) :: cache.filter fun p => decide (p.1 ≠ k)

/-- `_generate_and_cache_embeddings`: scoped store query (`LIMIT 1000`);
empty result short-circuits uncached; otherwise build the per-entity
text blobs (note: with `important_attrs` lacking `registration_number`),
batch-encode them, cache and return.  A cache-store write failure is
tolerated by the source (warning only) and is not modelled. -/
def generate_and_cache_embeddings (env : ResolveEnv) (st : ResolutionState)
    (ty : EntityType) (tenant cell : String) :
    Except String (CacheData × ResolutionState) :=
  let result := typeQuery st.store ty.value tenant cell 1000
  if result.isEmpty then .ok ({ entities := [], embeddings := [] }, st)
  else do
    let entities := result.map fun e =>
      ({ id := e.id, name := e.name, attributes := e.attributes } : EntityLite)
    let texts := result.map fun e =>
      embeddingText importantAttrsStored e.name e.attributes
    let embeddings ← texts.mapM env.encode
    let data : CacheData := { entities := entities, embeddings := embeddings }
    .ok (data, { st with cache := cacheSet st.cache (cacheKey ty tenant cell) data })

/-- `_get_cached_embeddings`: return the cached record on a hit, else
generate and cache.  (The source's `eval` deserialization is modelled as
structured data, and a cache-read failure falls through to the
generate path exactly like a miss.) -/
def get_cached_embeddings (env : ResolveEnv) (st : ResolutionState)
    (ty : EntityType) (tenant cell : String) :
    Except String (CacheData × ResolutionState) :=
  match cacheGet? st.cache (cacheKey ty tenant cell) with
  | some data => .ok (data, st)
  | none => generate_and_cache_embeddings env st ty tenant cell

/-- `_semantic_match`: nothing without a candidate embedding; otherwise
one cosine similarity per cached vector (sklearn `cosine_similarity`
modelled pairwise by the `cosSim` oracle), keeping those
`≥ similarity_threshold` with confidence = the raw similarity. -/
def semantic_match (env : ResolveEnv) (st : ResolutionState)
    (cand : EntityCandidate) (tenant cell : String) :
    Except String (List EntityMatch × ResolutionState) :=
  match cand.embedding with
  | none => .ok ([], st)
  | some emb => do
    let (cached, st') ← get_cached_embeddings env st cand.entity_type tenant cell
    let similarities := cached.embeddings.map (env.cosSim emb)
    let ms := (similarities.zip cached.entities).filterMap fun p =>
      if similarity_threshold ≤ p.1 then
        some { candidate_entity_id := cand.entity_id
               matched_entity_id := p.2.id
               confidence_score := p.1
               match_method := MatchMethod.semantic }
      else none
    .ok (ms, st')

/-- Python `len(s.split())`: the number of maximal non-whitespace runs
(`str.split()` with no argument splits on whitespace runs and drops
empty pieces). -/
def pyWordCount (s : String) : Nat :=
  (s.data.foldl
    (fun p c =>
      if c.isWhitespace then (p.1, false)
      else (if p.2 then p.1 else p.1 + 1, true))
    ((0 : Nat), false)).1

/-- `_extract_features`: `[len(name), len(name.split()), has email,
has phone, has address, len(attributes)]`. -/
def extract_features (name : String) (attrs : Attrs) : List Nat :=
  [ name.length,
    pyWordCount name,
    (match dictGet? attrs "email" with
     | some v => if v.isFalsy then 0 else 1
     | none => 0),
    (match dictGet? attrs "phone" with
     | some v => if v.isFalsy then 0 else 1
     | none => 0),
    (match dictGet? attrs "address" with
     | some v => if v.isFalsy then 0 else 1
     | none => 0),
    attrs.length ]

/-- `_ml_clustering_match`: fewer than 3 same-scope entities yields no
candidates; otherwise cluster the entity feature vectors plus the
candidate's, and if the candidate's label (the last one) is not noise
(`-1`), return every other index of its cluster with confidence
`min(0.9, 0.5 + (cluster_size - 2) * 0.1)`. -/
def ml_clustering_match (env : ResolveEnv) (store : List StoredEntity)
    (cand : EntityCandidate) (tenant cell : String) : List EntityMatch :=
  let entities_data := typeQuery store cand.entity_type.value tenant cell 500
  if entities_data.length < 3 then []
  else
    let features := (entities_data.map fun e => extract_features e.name e.attributes)
      ++ [extract_features cand.name cand.attributes]
    let entity_ids := entities_data.map StoredEntity.id ++ [cand.entity_id]
    let cluster_labels := env.fitPredict features
    let candidate_cluster := cluster_labels.getLastD (-1)
    if candidate_cluster ≠ -1 then
      let cluster_indices := (List.range cluster_labels.length).filter fun i =>
        decide (cluster_labels.getD i 0 = candidate_cluster)
      let cluster_size := cluster_indices.length
      cluster_indices.dropLast.map fun idx =>
        { candidate_entity_id := cand.entity_id
          matched_entity_id := entity_ids.getD idx ""
          confidence_score := min (9 / 10 : ℚ) (1 / 2 + ((cluster_size : ℚ) - 2) * (1 / 10))
          match_method := .ml_clustering }
    else []

/-- One step of `_deduplicate_matches`: the dict keyed by
`matched_entity_id` in insertion order; an existing entry is replaced in
place only by a strictly higher confidence. -/
def dedup_step (acc : List EntityMatch) (m : EntityMatch) : List EntityMatch :=
  if acc.any fun x => decide (x.matched_entity_id = m.matched_entity_id) then
    acc.map fun x =>
      if x.matched_entity_id = m.matched_entity_id ∧
          x.confidence_score < m.confidence_score then m else x
  else acc ++ [m]

/-- `_deduplicate_matches`. -/
def deduplicate_matches (ms : List EntityMatch) : List EntityMatch :=
  ms.foldl dedup_step []

/-- Stable descending insertion by `confidence_score` (equal scores keep
their original relative order, as Python's stable `list.sort` does). -/
def insertDesc (m : EntityMatch) : List EntityMatch → List EntityMatch
  | [] => [m]
  | x :: xs =>
    if x.confidence_score < m.confidence_score then m :: x :: xs
    else x :: insertDesc m xs

/-- `matches.sort(key=lambda m: m.confidence_score, reverse=True)`:
the stable descending sort (unique, hence equal to CPython's result). -/
def sortByConfDesc (ms : List EntityMatch) : List EntityMatch :=
  ms.foldr insertDesc []

/-- `max(matches, key=lambda m: m.confidence_score)` over `first :: rest`:
Python's `max` keeps the current item unless a later one is strictly
greater. -/
def pyMax (first : EntityMatch) (rest : List EntityMatch) : EntityMatch :=
  rest.foldl (fun a b => if a.confidence_score < b.confidence_score then b else a) first

/-- `_find_matches`: strategy dispatch, hybrid concatenation and
deduplication, final sort by confidence descending.  The `Except.error`
case models an exception propagating out of a strategy. -/
def find_matches (env : ResolveEnv) (st : ResolutionState)
    (cand : EntityCandidate) (tenant cell : String) (method : MatchMethod) :
    Except String (List EntityMatch × ResolutionState) := do
  let (ms, st') ←
    match method with
    | .exact => Except.ok (exact_match st.store cand tenant cell, st)
    | .fuzzy => Except.ok (fuzzy_match env st.store cand tenant cell, st)
    | .semantic => semantic_match env st cand tenant cell
    | .hybrid => do
      let exact_matches := exact_match st.store cand tenant cell
      let fuzzy_matches := fuzzy_match env st.store cand tenant cell
      let (semantic_matches, st') ← semantic_match env st cand tenant cell
      Except.ok (deduplicate_matches (exact_matches ++ fuzzy_matches ++ semantic_matches), st')
    | .ml_clustering => Except.ok (ml_clustering_match env st.store cand tenant cell, st)
  Except.ok (sortByConfDesc ms, st')

/-- `list(set(existing + value))`: the set union of two lists.  CPython's
set iteration order is hash-dependent; `dedup` fixes one duplicate-free
representative.  (Python would raise on unhashable elements; the
modelled value universe has only hashable ones.) -/
def pySetUnion (a b : List PyScalar) : List PyScalar :=
  (a ++ b).dedup

/-- One iteration of the attribute-merge loop of `_merge_entity_data`,
for one `(key, value)` pair of the new dict: adopt when the key is
missing or falsy in the merged dict; set-union when the present value is
truthy and both values are lists; otherwise keep the existing value. -/
def merge_step (merged : Attrs) (kv : String × PyVal) : Attrs :=
  match dictGet? merged kv.1 with
  | none => dictSet merged kv.1 kv.2
  | some old =>
    if old.isFalsy then dictSet merged kv.1 kv.2
    else
      match kv.2 with
      | .list vs =>
        match old with
        | .list os => dictSet merged kv.1 (.list (pySetUnion os vs))
        | _ => merged
      | _ => merged

/-- The attribute-merge loop of `_merge_entity_data`. -/
def merge_attributes (existing new : Attrs) : Attrs :=
  new.foldl merge_step existing

/-- `_merge_entity_data`: look the entity up by `(id, tenant, cell)`
(ValueError — modelled as `Except.error` — when absent), merge the
attributes, write them back, and return the updated entity dictionary. -/
def merge_entity_data (store : List StoredEntity) (entity_id : String)
    (new_data : EntityData) (tenant cell : String) :
    Except String (EntityDict × List StoredEntity) :=
  match (store.filter fun e =>
      decide (e.id = entity_id ∧ e.tenant_id = tenant ∧ e.cell_id = cell)).head? with
  | none => .error ("Entity " ++ entity_id ++ " not found")
  | some existing =>
    let merged := merge_attributes existing.attributes new_data.attributes
    let store' := store.map fun e =>
      if e.id = entity_id ∧ e.tenant_id = tenant ∧ e.cell_id = cell then
        { e with attributes := merged }
      else e
    .ok ({ id := entity_id
           name := existing.name
           entity_type := existing.entity_type
           attributes := merged
           tenant_id := tenant
           cell_id := cell }, store')

/-- `_create_entity`: create the node and return its dictionary. -/
def create_entity (store : List StoredEntity) (newId : String)
    (cand : EntityCandidate) (tenant cell : String) :
    EntityDict × List StoredEntity :=
  let node : StoredEntity :=
    { id := newId
      name := cand.name
      entity_type := cand.entity_type.value
      attributes := cand.attributes
      tenant_id := tenant
      cell_id := cell }
  ({ id := newId
     name := cand.name
     entity_type := cand.entity_type.value
     attributes := cand.attributes
     tenant_id := tenant
     cell_id := cell }, store ++ [node])

/-- The candidate-construction prefix of `resolve_entity` (lines 96-107):
enum validation (`EntityType(...)` raising on an unrecognized value) and
the embedding generation for the semantic and hybrid methods.  The
candidate's `entity_id` is the fresh `uuid4`, passed in explicitly. -/
def prepare_candidate (env : ResolveEnv) (candId : String) (ed : EntityData)
    (method : MatchMethod) : Except String EntityCandidate :=
  match EntityType.ofString ed.entity_type with
  | none => .error ("'" ++ ed.entity_type ++ "' is not a valid EntityType")
  | some ty =>
    let cand : EntityCandidate :=
      { entity_id := candId
        name := ed.name
        entity_type := ty
        attributes := ed.attributes
        embedding := none
        source_confidence := ed.confidence }
    if method = MatchMethod.semantic ∨ method = MatchMethod.hybrid then
      (generate_embedding env cand).map fun emb => { cand with embedding := some emb }
    else .ok cand

/-- The decision block of `resolve_entity` (lines 112-151): a best match
at or above the threshold is merged; otherwise create when requested,
else report no match with up to five alternatives. -/
def resolution_decision (st : ResolutionState) (ed : EntityData)
    (cand : EntityCandidate) (newId tenant cell : String)
    (create_if_not_found : Bool) (ms : List EntityMatch) :
    Except String (Outcome × ResolutionState) :=
  let fallback : Except String (Outcome × ResolutionState) :=
    if create_if_not_found then
      let (ent, store') := create_entity st.store newId cand tenant cell
      .ok (.created ent 1 (ms.take 5), { st with store := store' })
    else
      .ok (.no_match (ms.take 5), st)
  match ms with
  | [] => fallback
  | m :: rest =>
    let best := pyMax m rest
    if similarity_threshold ≤ best.confidence_score then
      (merge_entity_data st.store best.matched_entity_id ed tenant cell).map
        fun p => (.matched p.1 best.confidence_score best.match_method (rest.take 4),
          { st with store := p.2 })
    else fallback

/-- `resolve_entity`: candidate preparation, matching, decision — all
under the one enclosing `try/except` that converts any raised exception
into the `error` outcome.  (On that exceptional path the source keeps
whatever store/cache writes already happened; no reachable failure here
follows a write, so the pre-state is returned.) -/
def resolve_entity (env : ResolveEnv) (st : ResolutionState)
    (candId newId : String) (ed : EntityData) (tenant cell : String)
    (method : MatchMethod) (create_if_not_found : Bool) :
    Outcome × ResolutionState :=
  match (do
    let cand ← prepare_candidate env candId ed method
    let (ms, st1) ← find_matches env st cand tenant cell method
    resolution_decision st1 ed cand newId tenant cell create_if_not_found ms :
      Except String (Outcome × ResolutionState)) with
  | .ok r => r
  | .error e => (.error e, st)

/-! ## Helper notions and lemmas about deduplication and sorting -/

/-- The entry a match list holds for a given target entity id (the
association-list reading of the Python dict in `_deduplicate_matches`). -/
def entryFor (acc : List EntityMatch) (id : String) : Option EntityMatch :=
  acc.find? fun x => decide (x.matched_entity_id = id)

/-- Python's `max`-with-strict-replacement folded over one id group:
starting from an optional current best, a later element replaces the
best only when its confidence is strictly greater. -/
def groupBest : Option EntityMatch → List EntityMatch → Option EntityMatch
  | o, [] => o
  | none, m :: ms => groupBest (some m) ms
  | some a, m :: ms =>
    groupBest (some (if a.confidence_score < m.confidence_score then m else a)) ms

theorem find?_map_pres {α : Type} (f : α → α) (p : α → Bool)
    (hp : ∀ x, p (f x) = p x) :
    ∀ l : List α, (l.map f).find? p = (l.find? p).map f := by
  intro l
  induction l with
  | nil => rfl
  | cons x xs ih =>
    rw [List.map_cons]
    by_cases hx : p x = true
    · rw [List.find?_cons_of_pos _ ((hp x).trans hx), List.find?_cons_of_pos _ hx]
      rfl
    · rw [List.find?_cons_of_neg _ (by rw [hp x]; exact hx),
        List.find?_cons_of_neg _ hx, ih]

theorem entryFor_dedup_step (acc : List EntityMatch) (m : EntityMatch)
    (id : String) :
    entryFor (dedup_step acc m) id =
      if m.matched_entity_id = id then
        match entryFor acc id with
        | none => some m
        | some a => some (if a.confidence_score < m.confidence_score then m else a)
      else entryFor acc id := by
  unfold dedup_step
  by_cases hany : (acc.any fun x => decide (x.matched_entity_id = m.matched_entity_id)) = true
  · rw [if_pos hany]
    have hpres : ∀ x : EntityMatch,
        decide ((if x.matched_entity_id = m.matched_entity_id ∧
              x.confidence_score < m.confidence_score then m
            else x).matched_entity_id = id) =
        decide (x.matched_entity_id = id) := by
      intro x
      by_cases hc : x.matched_entity_id = m.matched_entity_id ∧
          x.confidence_score < m.confidence_score
      · rw [if_pos hc]
        simp only [hc.1]
      · rw [if_neg hc]
    have hmap := find?_map_pres
      (fun x : EntityMatch =>
        if x.matched_entity_id = m.matched_entity_id ∧
            x.confidence_score < m.confidence_score then m else x)
      (fun y : EntityMatch => decide (y.matched_entity_id = id)) hpres acc
    unfold entryFor
    rw [hmap]
    by_cases hid : m.matched_entity_id = id
    · rw [if_pos hid]
      cases hfind : acc.find? fun y : EntityMatch => decide (y.matched_entity_id = id) with
      | none =>
        rcases List.any_eq_true.mp hany with ⟨x, hxmem, hx⟩
        have := (List.find?_eq_none.mp hfind) x hxmem
        rw [hid] at hx
        exact absurd hx this
      | some a =>
        have ha : a.matched_entity_id = id := by
          have := List.find?_some hfind
          exact of_decide_eq_true this
        show some (if a.matched_entity_id = m.matched_entity_id ∧
            a.confidence_score < m.confidence_score then m else a) =
          some (if a.confidence_score < m.confidence_score then m else a)
        by_cases hconf : a.confidence_score < m.confidence_score
        · rw [if_pos ⟨ha.trans hid.symm, hconf⟩, if_pos hconf]
        · rw [if_neg (fun h => hconf h.2), if_neg hconf]
    · rw [if_neg hid]
      cases hfind : acc.find? fun y : EntityMatch => decide (y.matched_entity_id = id) with
      | none => rfl
      | some a =>
        have ha : a.matched_entity_id = id := by
          have := List.find?_some hfind
          exact of_decide_eq_true this
        show some (if a.matched_entity_id = m.matched_entity_id ∧
            a.confidence_score < m.confidence_score then m else a) = some a
        rw [if_neg (fun h : a.matched_entity_id = m.matched_entity_id ∧
            a.confidence_score < m.confidence_score => hid (h.1 ▸ ha))]
  · rw [if_neg hany]
    have hnon : ∀ x ∈ acc, x.matched_entity_id ≠ m.matched_entity_id := by
      intro x hx hcontra
      exact hany (List.any_eq_true.mpr ⟨x, hx, decide_eq_true hcontra⟩)
    unfold entryFor
    rw [List.find?_append]
    by_cases hid : m.matched_entity_id = id
    · rw [if_pos hid]
      have hnone : (acc.find? fun y : EntityMatch =>
          decide (y.matched_entity_id = id)) = none := by
        rw [List.find?_eq_none]
        intro x hx hdec
        exact hnon x hx ((of_decide_eq_true hdec).trans hid.symm)
      rw [hnone]
      have hfind1 : List.find? (fun x : EntityMatch =>
          decide (x.matched_entity_id = id)) [m] = some m := by
        simp [List.find?, hid]
      rw [hfind1]
      rfl
    · rw [if_neg hid]
      have hnone1 : ((([m] : List EntityMatch)).find? fun y : EntityMatch =>
          decide (y.matched_entity_id = id)) = none := by
        rw [List.find?_eq_none]
        intro x hx hdec
        rw [List.mem_singleton] at hx
        exact hid (hx ▸ of_decide_eq_true hdec)
      rw [hnone1]
      cases acc.find? fun y : EntityMatch => decide (y.matched_entity_id = id) <;> rfl

theorem entryFor_foldl (ms : List EntityMatch) (acc : List EntityMatch)
    (id : String) :
    entryFor (ms.foldl dedup_step acc) id =
      groupBest (entryFor acc id)
        (ms.filter fun m => decide (m.matched_entity_id = id)) := by
  induction ms generalizing acc with
  | nil =>
    show entryFor acc id = groupBest (entryFor acc id) []
    cases entryFor acc id <;> rfl
  | cons m ms ih =>
    rw [List.foldl_cons, ih]
    by_cases hid : m.matched_entity_id = id
    · have hfilter : (m :: ms).filter (fun x => decide (x.matched_entity_id = id)) =
          m :: ms.filter (fun x => decide (x.matched_entity_id = id)) := by
        simp [List.filter_cons, hid]
      rw [hfilter, entryFor_dedup_step, if_pos hid]
      cases entryFor acc id <;> rfl
    · have hfilter : (m :: ms).filter (fun x => decide (x.matched_entity_id = id)) =
          ms.filter (fun x => decide (x.matched_entity_id = id)) := by
        simp [List.filter_cons, hid]
      rw [hfilter, entryFor_dedup_step, if_neg hid]

/-- The per-id characterization of `_deduplicate_matches`: its entry for
any target id is Python's strict-replacement maximum over the input
sub-list for that id. -/
theorem entryFor_deduplicate (ms : List EntityMatch) (id : String) :
    entryFor (deduplicate_matches ms) id =
      groupBest none (ms.filter fun m => decide (m.matched_entity_id = id)) :=
  entryFor_foldl ms [] id

theorem groupBest_mem_or : ∀ (l : List EntityMatch) (a b : EntityMatch),
    groupBest (some a) l = some b → b = a ∨ b ∈ l := by
  intro l
  induction l with
  | nil => intro a b h; exact Or.inl (Option.some.inj h).symm
  | cons m ms ih =>
    intro a b h
    rcases ih _ b h with hb | hb
    · by_cases hc : a.confidence_score < m.confidence_score
      · rw [if_pos hc] at hb
        exact Or.inr (hb ▸ List.mem_cons_self m ms)
      · rw [if_neg hc] at hb
        exact Or.inl hb
    · exact Or.inr (List.mem_cons_of_mem m hb)

theorem groupBest_dominates : ∀ (l : List EntityMatch) (a b : EntityMatch),
    groupBest (some a) l = some b →
      a.confidence_score ≤ b.confidence_score ∧
      ∀ x ∈ l, x.confidence_score ≤ b.confidence_score := by
  intro l
  induction l with
  | nil =>
    intro a b h
    rw [(Option.some.inj h)]
    exact ⟨le_refl _, by intro x hx; exact absurd hx (List.not_mem_nil x)⟩
  | cons m ms ih =>
    intro a b h
    rcases ih _ b h with ⟨h1, h2⟩
    by_cases hc : a.confidence_score < m.confidence_score
    · rw [if_pos hc] at h1
      refine ⟨le_of_lt (lt_of_lt_of_le hc h1), ?_⟩
      intro x hx
      rcases List.mem_cons.mp hx with hx | hx
      · exact hx ▸ h1
      · exact h2 x hx
    · rw [if_neg hc] at h1
      refine ⟨h1, ?_⟩
      intro x hx
      rcases List.mem_cons.mp hx with hx | hx
      · exact hx ▸ le_trans (le_of_not_lt hc) h1
      · exact h2 x hx

theorem groupBest_isSome : ∀ (l : List EntityMatch) (a : EntityMatch),
    (groupBest (some a) l).isSome = true := by
  intro l
  induction l with
  | nil => intro a; rfl
  | cons m ms ih => intro a; exact ih _

theorem groupBest_earliest : ∀ (l : List EntityMatch) (a b : EntityMatch),
    groupBest (some a) l = some b →
      b = a ∨ ∃ pre post, l = pre ++ b :: post ∧
        a.confidence_score < b.confidence_score ∧
        ∀ x ∈ pre, x.confidence_score < b.confidence_score := by
  intro l
  induction l with
  | nil => intro a b h; exact Or.inl (Option.some.inj h).symm
  | cons m ms ih =>
    intro a b h
    have h' : groupBest (some (if a.confidence_score < m.confidence_score
        then m else a)) ms = some b := h
    by_cases hc : a.confidence_score < m.confidence_score
    · rw [if_pos hc] at h'
      rcases ih _ b h' with hb | ⟨pre, post, hsplit, hlt, hpre⟩
      · subst hb
        refine Or.inr ⟨[], ms, rfl, hc, ?_⟩
        intro x hx
        exact absurd hx (List.not_mem_nil x)
      · refine Or.inr ⟨m :: pre, post, by rw [hsplit]; rfl, lt_trans hc hlt, ?_⟩
        intro x hx
        rcases List.mem_cons.mp hx with hx | hx
        · exact hx ▸ hlt
        · exact hpre x hx
    · rw [if_neg hc] at h'
      rcases ih _ b h' with hb | ⟨pre, post, hsplit, hlt, hpre⟩
      · exact Or.inl hb
      · refine Or.inr ⟨m :: pre, post, by rw [hsplit]; rfl, hlt, ?_⟩
        intro x hx
        rcases List.mem_cons.mp hx with hx | hx
        · exact hx ▸ lt_of_le_of_lt (le_of_not_lt hc) hlt
        · exact hpre x hx

theorem groupBest_none_mem (l : List EntityMatch) (b : EntityMatch)
    (h : groupBest none l = some b) : b ∈ l := by
  cases l with
  | nil => exact absurd h (by intro hc; cases hc)
  | cons m ms =>
    rcases groupBest_mem_or ms m b h with hb | hb
    · exact hb ▸ List.mem_cons_self m ms
    · exact List.mem_cons_of_mem m hb

theorem groupBest_none_dominates (l : List EntityMatch) (b : EntityMatch)
    (h : groupBest none l = some b) :
    ∀ x ∈ l, x.confidence_score ≤ b.confidence_score := by
  cases l with
  | nil => intro x hx; exact absurd hx (List.not_mem_nil x)
  | cons m ms =>
    rcases groupBest_dominates ms m b h with ⟨h1, h2⟩
    intro x hx
    rcases List.mem_cons.mp hx with hx | hx
    · exact hx ▸ h1
    · exact h2 x hx

theorem groupBest_none_earliest (l : List EntityMatch) (b : EntityMatch)
    (h : groupBest none l = some b) :
    ∃ pre post, l = pre ++ b :: post ∧
      ∀ x ∈ pre, x.confidence_score < b.confidence_score := by
  cases l with
  | nil => exact absurd h (by intro hc; cases hc)
  | cons m ms =>
    rcases groupBest_earliest ms m b h with hb | ⟨pre, post, hsplit, hlt, hpre⟩
    · exact ⟨[], ms, by rw [hb]; rfl, by intro x hx; exact absurd hx (List.not_mem_nil x)⟩
    · refine ⟨m :: pre, post, by rw [hsplit]; rfl, ?_⟩
      intro x hx
      rcases List.mem_cons.mp hx with hx | hx
      · exact hx ▸ hlt
      · exact hpre x hx

theorem mem_dedup_step (acc : List EntityMatch) (m x : EntityMatch)
    (h : x ∈ dedup_step acc m) : x ∈ acc ∨ x = m := by
  unfold dedup_step at h
  by_cases hany : (acc.any fun y => decide (y.matched_entity_id = m.matched_entity_id)) = true
  · rw [if_pos hany] at h
    rcases List.mem_map.mp h with ⟨a, ha, hfa⟩
    by_cases hc : a.matched_entity_id = m.matched_entity_id ∧
        a.confidence_score < m.confidence_score
    · rw [if_pos hc] at hfa
      exact Or.inr hfa.symm
    · rw [if_neg hc] at hfa
      exact Or.inl (hfa ▸ ha)
  · rw [if_neg hany] at h
    rcases List.mem_append.mp h with h | h
    · exact Or.inl h
    · exact Or.inr (List.mem_singleton.mp h)

theorem mem_foldl_dedup (ms : List EntityMatch) :
    ∀ (acc : List EntityMatch) (x : EntityMatch),
      x ∈ ms.foldl dedup_step acc → x ∈ acc ∨ x ∈ ms := by
  induction ms with
  | nil => intro acc x h; exact Or.inl h
  | cons m ms ih =>
    intro acc x h
    rw [List.foldl_cons] at h
    rcases ih _ x h with h | h
    · rcases mem_dedup_step acc m x h with h | h
      · exact Or.inl h
      · exact Or.inr (h ▸ List.mem_cons_self m ms)
    · exact Or.inr (List.mem_cons_of_mem m h)

theorem mem_deduplicate (ms : List EntityMatch) (x : EntityMatch)
    (h : x ∈ deduplicate_matches ms) : x ∈ ms := by
  rcases mem_foldl_dedup ms [] x h with h | h
  · exact absurd h (List.not_mem_nil x)
  · exact h

theorem ids_dedup_step (acc : List EntityMatch) (m : EntityMatch)
    (h : (acc.map EntityMatch.matched_entity_id).Nodup) :
    ((dedup_step acc m).map EntityMatch.matched_entity_id).Nodup := by
  unfold dedup_step
  by_cases hany : (acc.any fun y => decide (y.matched_entity_id = m.matched_entity_id)) = true
  · rw [if_pos hany]
    have hmapeq : ((acc.map fun x =>
        if x.matched_entity_id = m.matched_entity_id ∧
            x.confidence_score < m.confidence_score then m else x).map
          EntityMatch.matched_entity_id) =
        acc.map EntityMatch.matched_entity_id := by
      rw [List.map_map]
      apply List.map_congr_left
      intro a _
      by_cases hc : a.matched_entity_id = m.matched_entity_id ∧
          a.confidence_score < m.confidence_score
      · rw [Function.comp_apply, if_pos hc]
        exact hc.1.symm
      · rw [Function.comp_apply, if_neg hc]
    rw [hmapeq]
    exact h
  · rw [if_neg hany]
    rw [List.map_append, List.map_singleton]
    rw [List.nodup_append]
    refine ⟨h, List.nodup_singleton _, ?_⟩
    intro a ha hb
    rw [List.mem_singleton] at hb
    rcases List.mem_map.mp ha with ⟨x, hx, hxa⟩
    have : x.matched_entity_id ≠ m.matched_entity_id := by
      intro hcontra
      exact hany (List.any_eq_true.mpr ⟨x, hx, decide_eq_true hcontra⟩)
    exact this (hxa.trans hb)

theorem ids_foldl_dedup (ms : List EntityMatch) :
    ∀ acc : List EntityMatch, (acc.map EntityMatch.matched_entity_id).Nodup →
      ((ms.foldl dedup_step acc).map EntityMatch.matched_entity_id).Nodup := by
  induction ms with
  | nil => intro acc h; exact h
  | cons m ms ih =>
    intro acc h
    rw [List.foldl_cons]
    exact ih _ (ids_dedup_step acc m h)

theorem ids_deduplicate_nodup (ms : List EntityMatch) :
    ((deduplicate_matches ms).map EntityMatch.matched_entity_id).Nodup :=
  ids_foldl_dedup ms [] List.nodup_nil

theorem entryFor_of_mem (acc : List EntityMatch) (m : EntityMatch)
    (hnd : (acc.map EntityMatch.matched_entity_id).Nodup) (hm : m ∈ acc) :
    entryFor acc m.matched_entity_id = some m := by
  induction acc with
  | nil => exact absurd hm (List.not_mem_nil m)
  | cons x xs ih =>
    rw [List.map_cons, List.nodup_cons] at hnd
    rcases List.mem_cons.mp hm with hm | hm
    · subst hm
      show List.find? (fun x : EntityMatch =>
        decide (x.matched_entity_id = m.matched_entity_id)) (m :: xs) = some m
      simp [List.find?]
    · have hx : x.matched_entity_id ≠ m.matched_entity_id := by
        intro hcontra
        exact hnd.1 (hcontra ▸ List.mem_map_of_mem EntityMatch.matched_entity_id hm)
      unfold entryFor
      have hstep : List.find? (fun y : EntityMatch =>
          decide (y.matched_entity_id = m.matched_entity_id)) (x :: xs) =
          List.find? (fun y : EntityMatch =>
            decide (y.matched_entity_id = m.matched_entity_id)) xs := by
        simp [List.find?, hx]
      rw [hstep]
      exact ih hnd.2 hm

/-! ### Lemmas about the stable descending sort -/

theorem mem_insertDesc (m x : EntityMatch) :
    ∀ l : List EntityMatch, x ∈ insertDesc m l ↔ x = m ∨ x ∈ l := by
  intro l
  induction l with
  | nil => simp [insertDesc]
  | cons y ys ih =>
    unfold insertDesc
    by_cases hc : y.confidence_score < m.confidence_score
    · rw [if_pos hc]
      simp [List.mem_cons]
    · rw [if_neg hc]
      rw [List.mem_cons, ih, List.mem_cons]
      tauto

theorem sorted_insertDesc (m : EntityMatch) :
    ∀ l : List EntityMatch,
      l.Pairwise (fun a b => b.confidence_score ≤ a.confidence_score) →
      (insertDesc m l).Pairwise (fun a b => b.confidence_score ≤ a.confidence_score) := by
  intro l
  induction l with
  | nil => intro _; exact List.pairwise_singleton _ m
  | cons y ys ih =>
    intro h
    rcases List.pairwise_cons.mp h with ⟨hy, hys⟩
    unfold insertDesc
    by_cases hc : y.confidence_score < m.confidence_score
    · rw [if_pos hc]
      refine List.pairwise_cons.mpr ⟨?_, h⟩
      intro z hz
      rcases List.mem_cons.mp hz with hz | hz
      · exact hz ▸ le_of_lt hc
      · exact le_trans (hy z hz) (le_of_lt hc)
    · rw [if_neg hc]
      refine List.pairwise_cons.mpr ⟨?_, ih hys⟩
      intro z hz
      rcases (mem_insertDesc m z ys).mp hz with hz | hz
      · exact hz ▸ le_of_not_lt hc
      · exact hy z hz

theorem sorted_sortByConfDesc (l : List EntityMatch) :
    (sortByConfDesc l).Pairwise
      (fun a b => b.confidence_score ≤ a.confidence_score) := by
  induction l with
  | nil => exact List.Pairwise.nil
  | cons x xs ih => exact sorted_insertDesc x _ ih

theorem mem_sortByConfDesc (x : EntityMatch) :
    ∀ l : List EntityMatch, x ∈ sortByConfDesc l ↔ x ∈ l := by
  intro l
  induction l with
  | nil => exact Iff.rfl
  | cons y ys ih =>
    show x ∈ insertDesc y (sortByConfDesc ys) ↔ _
    rw [mem_insertDesc, ih, List.mem_cons]

theorem pyMax_sorted (m : EntityMatch) :
    ∀ rest : List EntityMatch,
      (∀ x ∈ rest, x.confidence_score ≤ m.confidence_score) →
      pyMax m rest = m := by
  intro rest
  induction rest with
  | nil => intro _; rfl
  | cons y ys ih =>
    intro h
    unfold pyMax
    rw [List.foldl_cons, if_neg (not_lt_of_le (h y (List.mem_cons_self y ys)))]
    exact ih fun x hx => h x (List.mem_cons_of_mem y hx)

theorem pyMax_mem (m : EntityMatch) :
    ∀ rest : List EntityMatch, pyMax m rest ∈ m :: rest := by
  have key : ∀ (rest : List EntityMatch) (a : EntityMatch),
      (rest.foldl (fun a b =>
        if a.confidence_score < b.confidence_score then b else a) a) = a ∨
      (rest.foldl (fun a b =>
        if a.confidence_score < b.confidence_score then b else a) a) ∈ rest := by
    intro rest
    induction rest with
    | nil => intro a; exact Or.inl rfl
    | cons y ys ih =>
      intro a
      rw [List.foldl_cons]
      rcases ih (if a.confidence_score < y.confidence_score then y else a) with h | h
      · rw [h]
        by_cases hc : a.confidence_score < y.confidence_score
        · rw [if_pos hc]; exact Or.inr (List.mem_cons_self y ys)
        · rw [if_neg hc]; exact Or.inl rfl
      · exact Or.inr (List.mem_cons_of_mem y h)
  intro rest
  unfold pyMax
  rcases key rest m with h | h
  · rw [h]
    exact List.mem_cons_self m rest
  · exact List.mem_cons_of_mem m h

/-! ## Concrete fixtures shared by the witnesses and counterexamples -/

/-- An oracle bundle for concrete runs: a trivial similarity (100 on equal
strings), zero cosine similarity, an always-succeeding encoder, one
cluster for everything. -/
def envSimple : ResolveEnv :=
  { fuzzScore := fun a b => if a = b then 100 else 0
    cosSim := fun _ _ => 0
    encode := fun s => .ok [(s.length : ℚ)]
    fitPredict := fun fs => fs.map fun _ => 0 }

/-- An oracle bundle whose embedding provider raises on every text except
the candidate blob `"Acme Corp"`. -/
def envProviderDown : ResolveEnv :=
  { fuzzScore := fun _ _ => 100
    cosSim := fun _ _ => 0
    encode := fun s => if s = "Acme Corp" then .ok [1] else .error "embedding provider timeout"
    fitPredict := fun fs => fs.map fun _ => -1 }

/-- A stored organization whose name differs from `"Acme Corp"` only in
letter case. -/
def acmeUpper : StoredEntity :=
  { id := "E1"
    name := "ACME CORP"
    entity_type := "organization"
    attributes := []
    tenant_id := "t1"
    cell_id := "c1" }

/-! ## C5 — the two embedding text blobs -/

/-- C5 counterexample: for an entity carrying a truthy
`registration_number` attribute, the blob built by `_generate_embedding`
(the Feature Extractor path) differs from the blob built by
`_generate_and_cache_embeddings` (the Embedding Cache miss path), because
the latter's `important_attrs` list omits `registration_number`. -/
theorem claim_C5_counterexample :
    embeddingText importantAttrsCandidate "A"
        [("registration_number", PyVal.scalar (PyScalar.str "R1"))] ≠
      embeddingText importantAttrsStored "A"
        [("registration_number", PyVal.scalar (PyScalar.str "R1"))] := by
  decide

/-- C5 amended: the cache-miss path renders the fixed ordered subset
address, email, phone, business_name — without `registration_number` —
so its blob equals the candidate-path blob exactly when the entity's
`registration_number` attribute is absent or falsy. -/
theorem claim_C5_amended (name : String) (attrs : Attrs)
    (h : ∀ v, dictGet? attrs "registration_number" = some v → v.isFalsy = true) :
    embeddingText importantAttrsStored name attrs =
      embeddingText importantAttrsCandidate name attrs := by
  have hfrag : attrFragments importantAttrsCandidate attrs =
      attrFragments importantAttrsStored attrs := by
    have hsplit : importantAttrsCandidate =
        importantAttrsStored ++ ["registration_number"] := rfl
    rw [hsplit]
    unfold attrFragments
    rw [List.filterMap_append]
    have hlast : (["registration_number"].filterMap fun a =>
        match dictGet? attrs a with
        | some v => if v.isFalsy then none else some (a ++ ": " ++ v.pyStr)
        | none => none) = [] := by
      cases hd : dictGet? attrs "registration_number" with
      | none => simp [List.filterMap, hd]
      | some v => simp [List.filterMap, hd, h v hd]
    rw [hlast, List.append_nil]
  unfold embeddingText
  rw [hfrag]

/-- C5 witness: the amended statement at a concrete entity without a
`registration_number` attribute. -/
theorem claim_C5_witness :
    embeddingText importantAttrsStored "Acme"
        [("email", PyVal.scalar (PyScalar.str "a@b"))] =
      embeddingText importantAttrsCandidate "Acme"
        [("email", PyVal.scalar (PyScalar.str "a@b"))] :=
  claim_C5_amended "Acme" [("email", PyVal.scalar (PyScalar.str "a@b"))]
    (fun v hv => by simp [dictGet?, List.find?] at hv)

/-! ## C9 — input validation -/

unseal Rat.mul Rat.inv Rat.add Rat.sub in
/-- C9 counterexample: an observation with an empty name and a valid
entity type is not rejected — against an empty store with
`create_if_not_found = true` (fuzzy method) the resolution proceeds all
the way to a downstream entity-store create, returning the `created`
outcome and writing an entity with an empty name, rather than failing
fast with an invalid-observation error. -/
theorem claim_C9_counterexample :
    resolve_entity envSimple { store := [], cache := [] } "cid" "nid"
        { name := "", entity_type := "organization" } "t1" "c1" .fuzzy true =
      (.created { id := "nid", name := "", entity_type := "organization",
                  attributes := [], tenant_id := "t1", cell_id := "c1" } 1 [],
        { store := [{ id := "nid", name := "", entity_type := "organization",
                      attributes := [], tenant_id := "t1", cell_id := "c1" }], cache := [] }) := by
  decide

/-- C9 amended: only the entity-type half of the validation exists.  An
observation whose `entity_type` is not a recognized enum value fails
during candidate construction, before any entity-store query, embedding
call, create or merge: the outcome is the error variant and the store
and cache are untouched.  An empty name is never rejected. -/
theorem claim_C9_amended (env : ResolveEnv) (st : ResolutionState)
    (candId newId : String) (ed : EntityData) (tenant cell : String)
    (method : MatchMethod) (create_if_not_found : Bool)
    (h : EntityType.ofString ed.entity_type = none) :
    resolve_entity env st candId newId ed tenant cell method create_if_not_found =
      (.error ("'" ++ ed.entity_type ++ "' is not a valid EntityType"), st) := by
  have hp : prepare_candidate env candId ed method =
      .error ("'" ++ ed.entity_type ++ "' is not a valid EntityType") := by
    unfold prepare_candidate
    rw [h]
  unfold resolve_entity
  rw [hp]
  rfl

/-- C9 witness: the amended statement at a concrete unrecognized entity
type. -/
theorem claim_C9_witness :
    resolve_entity envSimple { store := [acmeUpper], cache := [] } "cid" "nid"
        { name := "Acme Corp", entity_type := "starship" } "t1" "c1" .hybrid true =
      (.error "'starship' is not a valid EntityType",
        { store := [acmeUpper], cache := [] }) :=
  claim_C9_amended envSimple { store := [acmeUpper], cache := [] } "cid" "nid"
    { name := "Acme Corp", entity_type := "starship" } "t1" "c1" .hybrid true
    (by decide)

/-! ## C1 — strategy-failure independence in hybrid resolution -/

unseal Rat.mul Rat.inv Rat.add Rat.sub in
/-- C1 counterexample: with the embedding provider raising on the stored
entities' texts, a hybrid resolution in which the Fuzzy strategy succeeds
(it produces a confidence-1.0 candidate for the stored entity) still
returns the error outcome: the one enclosing `try/except` of
`resolve_entity` aborts the whole request instead of proceeding with the
successful strategies' candidates. -/
theorem claim_C1_counterexample :
    fuzzy_match envProviderDown [acmeUpper]
        { entity_id := "cid", name := "Acme Corp", entity_type := .organization,
          attributes := [], embedding := some [1], source_confidence := 1 } "t1" "c1" =
      [{ candidate_entity_id := "cid", matched_entity_id := "E1",
         confidence_score := 1, match_method := .fuzzy }]
    ∧ resolve_entity envProviderDown { store := [acmeUpper], cache := [] } "cid" "nid"
        { name := "Acme Corp", entity_type := "organization" } "t1" "c1" .hybrid true =
      (.error "embedding provider timeout", { store := [acmeUpper], cache := [] }) := by
  constructor
  · decide
  · decide

/-- C1 amended: an embedding-provider failure inside the Semantic
strategy of a hybrid resolution is not absorbed: the whole request
returns the error outcome, discarding whatever the Exact and Fuzzy
strategies produced. -/
theorem claim_C1_amended (env : ResolveEnv) (st : ResolutionState)
    (candId newId : String) (ed : EntityData) (tenant cell : String)
    (create_if_not_found : Bool) (cand : EntityCandidate) (msg : String)
    (hprep : prepare_candidate env candId ed .hybrid = .ok cand)
    (hsem : semantic_match env st cand tenant cell = .error msg) :
    resolve_entity env st candId newId ed tenant cell .hybrid create_if_not_found =
      (.error msg, st) := by
  unfold resolve_entity
  rw [hprep]
  show (match (find_matches env st cand tenant cell .hybrid >>= fun p =>
      resolution_decision p.2 ed cand newId tenant cell create_if_not_found p.1 :
      Except String (Outcome × ResolutionState)) with
    | .ok r => r
    | .error e => (.error e, st)) = (.error msg, st)
  unfold find_matches
  rw [hsem]
  rfl

unseal Rat.mul Rat.inv Rat.add Rat.sub in
/-- C1 witness: the amended statement at the concrete provider-down
scenario. -/
theorem claim_C1_witness :
    resolve_entity envProviderDown { store := [acmeUpper], cache := [] } "cid" "nid"
        { name := "Acme Corp", entity_type := "organization" } "t1" "c1" .hybrid false =
      (.error "embedding provider timeout", { store := [acmeUpper], cache := [] }) :=
  claim_C1_amended envProviderDown { store := [acmeUpper], cache := [] } "cid" "nid"
    { name := "Acme Corp", entity_type := "organization" } "t1" "c1" false
    { entity_id := "cid", name := "Acme Corp", entity_type := .organization,
      attributes := [], embedding := some [1], source_confidence := 1 }
    "embedding provider timeout" (by decide) (by decide)

/-! ## C4 — match aggregation -/

/-- C4 counterexample: two matches for the same target entity with equal
confidence, a FUZZY one first and a SEMANTIC one second (the order the
hybrid composition concatenates them in), deduplicate to the FUZZY one:
the tie is broken by input position, not by the claimed method order
EXACT > SEMANTIC > FUZZY > CLUSTERING. -/
theorem claim_C4_counterexample :
    deduplicate_matches
        [{ candidate_entity_id := "c", matched_entity_id := "X",
           confidence_score := 1, match_method := .fuzzy },
         { candidate_entity_id := "c", matched_entity_id := "X",
           confidence_score := 1, match_method := .semantic }] =
      [{ candidate_entity_id := "c", matched_entity_id := "X",
         confidence_score := 1, match_method := .fuzzy }] := by
  decide

/-- C4 amended: aggregation keeps, for each distinct `matched_entity_id`,
exactly one match — a highest-confidence one, with ties broken by keeping
the earliest-seen match of the input list (for hybrid inputs that order
is Exact, then Fuzzy, then Semantic), since a later match replaces the
kept one only on strictly greater confidence — and the aggregated list is
sorted by `confidence_score` descending by `_find_matches`.  Stated as:
(1) output ids are duplicate-free; (2) the output entry per id is the
strict-replacement maximum over that id's input sub-list; (3) every
output match is an input match dominating all input matches for its id;
(4) every input id survives; (5) the kept match is the earliest of its
group attaining the maximum; (6) the sorted aggregate is descending. -/
theorem claim_C4_amended (ms : List EntityMatch) :
    ((deduplicate_matches ms).map EntityMatch.matched_entity_id).Nodup
    ∧ (∀ id, entryFor (deduplicate_matches ms) id =
        groupBest none (ms.filter fun x => decide (x.matched_entity_id = id)))
    ∧ (∀ m ∈ deduplicate_matches ms, m ∈ ms ∧
        ∀ m' ∈ ms, m'.matched_entity_id = m.matched_entity_id →
          m'.confidence_score ≤ m.confidence_score)
    ∧ (∀ m' ∈ ms, ∃ m ∈ deduplicate_matches ms,
        m.matched_entity_id = m'.matched_entity_id)
    ∧ (∀ m ∈ deduplicate_matches ms, ∃ pre post,
        (ms.filter fun x =>
          decide (x.matched_entity_id = m.matched_entity_id)) = pre ++ m :: post ∧
        ∀ x ∈ pre, x.confidence_score < m.confidence_score)
    ∧ (sortByConfDesc (deduplicate_matches ms)).Pairwise
        (fun a b => b.confidence_score ≤ a.confidence_score) := by
  have hnd := ids_deduplicate_nodup ms
  refine ⟨hnd, fun id => entryFor_deduplicate ms id, ?_, ?_, ?_,
    sorted_sortByConfDesc _⟩
  · intro m hm
    refine ⟨mem_deduplicate ms m hm, ?_⟩
    intro m' hm' hid
    have hchar := entryFor_deduplicate ms m.matched_entity_id
    have hm2 : entryFor (deduplicate_matches ms) m.matched_entity_id = some m :=
      entryFor_of_mem _ m hnd hm
    rw [hm2] at hchar
    apply groupBest_none_dominates _ m hchar.symm
    rw [List.mem_filter]
    exact ⟨hm', by simpa using hid⟩
  · intro m' hm'
    have hchar := entryFor_deduplicate ms m'.matched_entity_id
    cases hgb : groupBest none
        (ms.filter fun x => decide (x.matched_entity_id = m'.matched_entity_id)) with
    | none =>
      have hmem : m' ∈ ms.filter fun x =>
          decide (x.matched_entity_id = m'.matched_entity_id) := by
        rw [List.mem_filter]
        exact ⟨hm', by simp⟩
      cases hfl : ms.filter fun x =>
          decide (x.matched_entity_id = m'.matched_entity_id) with
      | nil =>
        rw [hfl] at hmem
        exact absurd hmem (List.not_mem_nil m')
      | cons y ys =>
        rw [hfl] at hgb
        have hsome := groupBest_isSome ys y
        rw [show groupBest none (y :: ys) = groupBest (some y) ys from rfl] at hgb
        rw [hgb] at hsome
        exact absurd hsome (by simp)
    | some b =>
      rw [hgb] at hchar
      have hchar' : List.find? (fun x : EntityMatch =>
          decide (x.matched_entity_id = m'.matched_entity_id))
          (deduplicate_matches ms) = some b := hchar
      have hb : b ∈ deduplicate_matches ms := List.mem_of_find?_eq_some hchar'
      have hpb := List.find?_some hchar'
      have hbid : b.matched_entity_id = m'.matched_entity_id :=
        of_decide_eq_true hpb
      exact ⟨b, hb, hbid⟩
  · intro m hm
    have hm2 : entryFor (deduplicate_matches ms) m.matched_entity_id = some m :=
      entryFor_of_mem _ m hnd hm
    have hchar := (entryFor_deduplicate ms m.matched_entity_id).symm.trans hm2
    exact groupBest_none_earliest _ m hchar

/-- C4 witness: the per-id characterization at a concrete two-element
input. -/
theorem claim_C4_witness :
    entryFor (deduplicate_matches
        [{ candidate_entity_id := "c", matched_entity_id := "X",
           confidence_score := 1, match_method := .exact },
         { candidate_entity_id := "c", matched_entity_id := "Y",
           confidence_score := 1 / 2, match_method := .fuzzy }]) "Y" =
      groupBest none
        ([{ candidate_entity_id := "c", matched_entity_id := "X",
            confidence_score := 1, match_method := .exact },
          { candidate_entity_id := "c", matched_entity_id := "Y",
            confidence_score := 1 / 2, match_method := .fuzzy }].filter
          fun x => decide (x.matched_entity_id = "Y")) :=
  (claim_C4_amended
    [{ candidate_entity_id := "c", matched_entity_id := "X",
       confidence_score := 1, match_method := .exact },
     { candidate_entity_id := "c", matched_entity_id := "Y",
       confidence_score := 1 / 2, match_method := .fuzzy }]).2.1 "Y"

/-! ## C6 — the fuzzy strategy -/

/-- C6: over the scoped, capped fuzzy query, a stored entity yields a
match iff its (oracle) string similarity to the candidate's lowercased
name reaches the fuzzy threshold 80, and the match's confidence is that
similarity divided by 100 — hence confidence 1.0 at similarity 100, no
candidate below 80, and all confidences within `[0, 1]` whenever the
similarity oracle is bounded by 100 as `fuzz.ratio` is. -/
theorem claim_C6_fuzzy (env : ResolveEnv) (store : List StoredEntity)
    (cand : EntityCandidate) (tenant cell : String)
    (hbound : ∀ a b, env.fuzzScore a b ≤ 100)
    (hids : (store.map StoredEntity.id).Nodup) :
    (∀ m ∈ fuzzy_match env store cand tenant cell,
      ∃ e ∈ typeQuery store cand.entity_type.value tenant cell 100,
        m.matched_entity_id = e.id ∧
        fuzzy_threshold ≤ env.fuzzScore (pyLower cand.name) (pyLower e.name) ∧
        m.confidence_score =
          (env.fuzzScore (pyLower cand.name) (pyLower e.name) : ℚ) / 100 ∧
        m.match_method = .fuzzy ∧
        0 ≤ m.confidence_score ∧ m.confidence_score ≤ 1)
    ∧ (∀ e ∈ typeQuery store cand.entity_type.value tenant cell 100,
        fuzzy_threshold ≤ env.fuzzScore (pyLower cand.name) (pyLower e.name) →
        ∃ m ∈ fuzzy_match env store cand tenant cell,
          m.matched_entity_id = e.id ∧
          m.confidence_score =
            (env.fuzzScore (pyLower cand.name) (pyLower e.name) : ℚ) / 100)
    ∧ (∀ e ∈ typeQuery store cand.entity_type.value tenant cell 100,
        env.fuzzScore (pyLower cand.name) (pyLower e.name) = 100 →
        ∃ m ∈ fuzzy_match env store cand tenant cell,
          m.matched_entity_id = e.id ∧ m.confidence_score = 1)
    ∧ (∀ e ∈ typeQuery store cand.entity_type.value tenant cell 100,
        env.fuzzScore (pyLower cand.name) (pyLower e.name) < fuzzy_threshold →
        ∀ m ∈ fuzzy_match env store cand tenant cell,
          m.matched_entity_id ≠ e.id) := by
  have hqids : ((typeQuery store cand.entity_type.value tenant cell 100).map
      StoredEntity.id).Nodup := by
    apply List.Nodup.sublist _ hids
    apply List.Sublist.map
    exact List.Sublist.trans (List.take_sublist _ _) (List.filter_sublist _)
  have hshape : ∀ m ∈ fuzzy_match env store cand tenant cell,
      ∃ e ∈ typeQuery store cand.entity_type.value tenant cell 100,
        m.matched_entity_id = e.id ∧
        fuzzy_threshold ≤ env.fuzzScore (pyLower cand.name) (pyLower e.name) ∧
        m.confidence_score =
          (env.fuzzScore (pyLower cand.name) (pyLower e.name) : ℚ) / 100 ∧
        m.match_method = .fuzzy ∧
        0 ≤ m.confidence_score ∧ m.confidence_score ≤ 1 := by
    intro m hm
    rcases List.mem_filterMap.mp hm with ⟨e, he, hfe⟩
    by_cases hcond : fuzzy_threshold ≤ env.fuzzScore (pyLower cand.name) (pyLower e.name)
    · rw [if_pos hcond] at hfe
      have hm' := (Option.some.inj hfe).symm
      subst hm'
      refine ⟨e, he, rfl, hcond, rfl, rfl, ?_, ?_⟩
      · apply div_nonneg (Nat.cast_nonneg _)
        norm_num
      · rw [div_le_one (by norm_num : (0:ℚ) < 100)]
        exact_mod_cast hbound (pyLower cand.name) (pyLower e.name)
    · rw [if_neg hcond] at hfe
      exact absurd hfe (by simp)
  refine ⟨hshape, ?_, ?_, ?_⟩
  · intro e he hth
    refine ⟨{ candidate_entity_id := cand.entity_id, matched_entity_id := e.id,
              confidence_score :=
                (env.fuzzScore (pyLower cand.name) (pyLower e.name) : ℚ) / 100,
              match_method := .fuzzy }, ?_, rfl, rfl⟩
    apply List.mem_filterMap.mpr
    exact ⟨e, he, by rw [if_pos hth]⟩
  · intro e he h100
    refine ⟨{ candidate_entity_id := cand.entity_id, matched_entity_id := e.id,
              confidence_score :=
                (env.fuzzScore (pyLower cand.name) (pyLower e.name) : ℚ) / 100,
              match_method := .fuzzy }, ?_, rfl, ?_⟩
    · apply List.mem_filterMap.mpr
      refine ⟨e, he, by rw [if_pos (by rw [h100]; exact by norm_num [fuzzy_threshold])]⟩
    · rw [h100]
      norm_num
  · intro e he hlt m hm hid
    rcases hshape m hm with ⟨e', he', hid', hth', _⟩
    have : e' = e := by
      apply List.inj_on_of_nodup_map hqids he' he
      rw [← hid', hid]
    rw [this] at hth'
    exact absurd hth' (not_le_of_lt hlt)

/-- C6 witness: similarity 100 produces a confidence-1.0 match for the
stored entity. -/
theorem claim_C6_witness :
    ∃ m ∈ fuzzy_match envSimple [acmeUpper]
        { entity_id := "cid", name := "ACME CORP",
          entity_type := .organization, attributes := [] } "t1" "c1",
      m.matched_entity_id = acmeUpper.id ∧ m.confidence_score = 1 :=
  (claim_C6_fuzzy envSimple [acmeUpper]
    { entity_id := "cid", name := "ACME CORP",
      entity_type := .organization, attributes := [] } "t1" "c1"
    (fun a b => by simp only [envSimple]; split <;> decide)
    (by decide)).2.2.1 acmeUpper (by decide) (by decide)

/-! ## C10 — exact is case-sensitive, fuzzy is not -/

/-- C10: when every stored entity's name differs from the candidate's
name as a raw string (as it does for a pair differing only in letter
case), the Exact strategy returns no match at all — its store lookup
compares unnormalized names — while the Fuzzy strategy lowercases both
sides, so any scoped same-type entity whose lowercased name equals the
candidate's lowercased name yields a fuzzy match of confidence 1.0
(similarity 100, using `fuzz.ratio`'s reflexivity). -/
theorem claim_C10_case_sensitivity (env : ResolveEnv)
    (store : List StoredEntity) (cand : EntityCandidate)
    (tenant cell : String)
    (hrefl : ∀ s, env.fuzzScore s s = 100)
    (hall : ∀ e ∈ store, e.name ≠ cand.name) :
    exact_match store cand tenant cell = []
    ∧ ∀ e ∈ typeQuery store cand.entity_type.value tenant cell 100,
        (pyLower e.name) = (pyLower cand.name) →
        ∃ m ∈ fuzzy_match env store cand tenant cell,
          m.matched_entity_id = e.id ∧ m.confidence_score = 1 ∧
          m.match_method = .fuzzy := by
  constructor
  · unfold exact_match exactQuery
    have hfil : (store.filter fun e =>
        decide (e.name = cand.name ∧ e.entity_type = cand.entity_type.value ∧
          e.tenant_id = tenant ∧ e.cell_id = cell)) = [] := by
      rw [List.filter_eq_nil_iff]
      intro e he hdec
      exact hall e he (of_decide_eq_true hdec).1
    rw [hfil]
    rfl
  · intro e he hlower
    have h100 : env.fuzzScore (pyLower cand.name) (pyLower e.name) = 100 := by
      rw [hlower]
      exact hrefl (pyLower cand.name)
    refine ⟨{ candidate_entity_id := cand.entity_id, matched_entity_id := e.id,
              confidence_score :=
                (env.fuzzScore (pyLower cand.name) (pyLower e.name) : ℚ) / 100,
              match_method := .fuzzy }, ?_, rfl, ?_, rfl⟩
    · apply List.mem_filterMap.mpr
      refine ⟨e, he, by rw [if_pos (by rw [h100]; exact by norm_num [fuzzy_threshold])]⟩
    · rw [h100]
      norm_num

/-- C10 witness: `"Acme Corp"` against a stored `"ACME CORP"`: no exact
match, one confidence-1.0 fuzzy match. -/
theorem claim_C10_witness :
    exact_match [acmeUpper]
        { entity_id := "cid", name := "Acme Corp",
          entity_type := .organization, attributes := [] } "t1" "c1" = []
    ∧ ∀ e ∈ typeQuery [acmeUpper] (EntityType.organization).value "t1" "c1" 100,
        (pyLower e.name) = pyLower "Acme Corp" →
        ∃ m ∈ fuzzy_match envSimple [acmeUpper]
            { entity_id := "cid", name := "Acme Corp",
              entity_type := .organization, attributes := [] } "t1" "c1",
          m.matched_entity_id = e.id ∧ m.confidence_score = 1 ∧
          m.match_method = .fuzzy :=
  claim_C10_case_sensitivity envSimple [acmeUpper]
    { entity_id := "cid", name := "Acme Corp",
      entity_type := .organization, attributes := [] } "t1" "c1"
    (fun s => by simp [envSimple]) (by decide)

/-! ## C7 — the clustering strategy -/

/-- C7: with the DBSCAN oracle returning one label per sample (as
`fit_predict` does), the clustering strategy returns zero candidates when
fewer than 3 same-scope entities exist, zero candidates when the
candidate's label is noise (`-1`), and otherwise one match per other
member of the candidate's cluster, each with confidence exactly
`min(0.9, 0.5 + (cluster_size - 2) * 0.1)` — never above 0.9. -/
theorem claim_C7_clustering (env : ResolveEnv) (store : List StoredEntity)
    (cand : EntityCandidate) (tenant cell : String)
    (entities_data : List StoredEntity) (features : List (List Nat))
    (labels : List Int)
    (hlen : ∀ fs, (env.fitPredict fs).length = fs.length)
    (hq : entities_data = typeQuery store cand.entity_type.value tenant cell 500)
    (hfeat : features =
      (entities_data.map fun e => extract_features e.name e.attributes) ++
        [extract_features cand.name cand.attributes])
    (hlab : labels = env.fitPredict features) :
    (entities_data.length < 3 →
      ml_clustering_match env store cand tenant cell = [])
    ∧ (¬ entities_data.length < 3 → labels.getLastD (-1) = -1 →
      ml_clustering_match env store cand tenant cell = [])
    ∧ (¬ entities_data.length < 3 → labels.getLastD (-1) ≠ -1 →
      ∀ m ∈ ml_clustering_match env store cand tenant cell,
        m.match_method = .ml_clustering ∧
        m.confidence_score = min (9 / 10 : ℚ)
          (1 / 2 + ((((List.range labels.length).filter fun i =>
              decide (labels.getD i 0 = labels.getLastD (-1))).length : ℚ) - 2)
            * (1 / 10)) ∧
        m.confidence_score ≤ 9 / 10)
    ∧ (¬ entities_data.length < 3 → labels.getLastD (-1) ≠ -1 →
      ∀ i, i < entities_data.length →
        labels.getD i 0 = labels.getLastD (-1) →
        ∃ m ∈ ml_clustering_match env store cand tenant cell,
          m.matched_entity_id = (entities_data.map StoredEntity.id).getD i "")
    ∧ (¬ entities_data.length < 3 → labels.getLastD (-1) ≠ -1 →
      ∀ m ∈ ml_clustering_match env store cand tenant cell,
        ∃ i, i < entities_data.length ∧
          labels.getD i 0 = labels.getLastD (-1) ∧
          m.matched_entity_id = (entities_data.map StoredEntity.id).getD i "") := by
  subst hq
  subst hfeat
  subst hlab
  set ed := typeQuery store cand.entity_type.value tenant cell 500 with hed
  set fs := (ed.map fun e => extract_features e.name e.attributes) ++
    [extract_features cand.name cand.attributes] with hfs
  set labels := env.fitPredict fs with hlabels
  set c := labels.getLastD (-1) with hc
  have hlablen : labels.length = ed.length + 1 := by
    rw [hlabels, hlen, hfs, List.length_append, List.length_map]
    rfl
  constructor
  · intro hlt
    unfold ml_clustering_match
    rw [← hed, if_pos hlt]
  · constructor
    · intro hge hnoise
      unfold ml_clustering_match
      rw [← hed, if_neg hge]
      simp only [← hfs, ← hlabels, ← hc]
      rw [if_neg (by simpa using hnoise)]
    · -- the non-noise shape shared by the last three conjuncts
      have hshape : ¬ ed.length < 3 → c ≠ -1 →
          ml_clustering_match env store cand tenant cell =
            ((List.range ed.length).filter fun i =>
              decide (labels.getD i 0 = c)).map fun idx =>
              { candidate_entity_id := cand.entity_id
                matched_entity_id :=
                  (ed.map StoredEntity.id ++ [cand.entity_id]).getD idx ""
                confidence_score := min (9 / 10 : ℚ)
                  (1 / 2 + ((((List.range labels.length).filter fun i =>
                      decide (labels.getD i 0 = c)).length : ℚ) - 2) * (1 / 10))
                match_method := .ml_clustering } := by
        intro hge hne
        have hlt : ed.length < labels.length := by
          rw [hlablen]
          exact Nat.lt_succ_self _
        have hpn : labels.getD ed.length 0 = c := by
          rw [hc, List.getD_eq_getElem?_getD, List.getLastD_eq_getLast?,
            List.getLast?_eq_getElem?, hlablen,
            show ed.length + 1 - 1 = ed.length from rfl,
            List.getElem?_eq_getElem hlt]
          rfl
        unfold ml_clustering_match
        rw [← hed, if_neg hge]
        simp only [← hfs, ← hlabels, ← hc]
        rw [if_pos hne]
        have hfilter : ((List.range labels.length).filter fun i =>
            decide (labels.getD i 0 = c)) =
            ((List.range ed.length).filter fun i =>
              decide (labels.getD i 0 = c)) ++ [ed.length] := by
          rw [hlablen, List.range_succ, List.filter_append]
          have hdec : (decide (labels.getD ed.length 0 = c)) = true :=
            decide_eq_true hpn
          rw [List.filter_singleton, hdec]
          rfl
        rw [hfilter, List.dropLast_concat, ← hfilter]
      refine ⟨?_, ?_, ?_⟩
      · intro hge hne m hm
        rw [hshape hge hne] at hm
        rcases List.mem_map.mp hm with ⟨idx, _, hfm⟩
        subst hfm
        exact ⟨rfl, rfl, min_le_left _ _⟩
      · intro hge hne i hi hci
        rw [hshape hge hne]
        have hmem : i ∈ (List.range ed.length).filter fun j =>
            decide (labels.getD j 0 = c) := by
          rw [List.mem_filter]
          exact ⟨List.mem_range.mpr hi, decide_eq_true hci⟩
        refine ⟨_, List.mem_map_of_mem _ hmem, ?_⟩
        show (ed.map StoredEntity.id ++ [cand.entity_id]).getD i "" =
          (ed.map StoredEntity.id).getD i ""
        exact List.getD_append _ _ _ _ (by rw [List.length_map]; exact hi)
      · intro hge hne m hm
        rw [hshape hge hne] at hm
        rcases List.mem_map.mp hm with ⟨idx, hidx, hfm⟩
        rw [List.mem_filter, List.mem_range] at hidx
        refine ⟨idx, hidx.1, of_decide_eq_true hidx.2, ?_⟩
        rw [← hfm]
        show (ed.map StoredEntity.id ++ [cand.entity_id]).getD idx "" =
          (ed.map StoredEntity.id).getD idx ""
        exact List.getD_append _ _ _ _ (by rw [List.length_map]; exact hidx.1)

/-- Three same-scope organizations, for the clustering witness. -/
def storeTriple : List StoredEntity :=
  [{ id := "E1", name := "Acme", entity_type := "organization",
     attributes := [], tenant_id := "t1", cell_id := "c1" },
   { id := "E2", name := "Bolt", entity_type := "organization",
     attributes := [], tenant_id := "t1", cell_id := "c1" },
   { id := "E3", name := "Crux", entity_type := "organization",
     attributes := [], tenant_id := "t1", cell_id := "c1" }]

unseal Rat.mul Rat.inv Rat.add Rat.sub in
/-- C7 witness: the everything-in-one-cluster oracle over three stored
organizations puts the candidate in a non-noise cluster and returns the
first stored entity as a match. -/
theorem claim_C7_witness :
    ∃ m ∈ ml_clustering_match envSimple storeTriple
        { entity_id := "cid", name := "Zed",
          entity_type := .organization, attributes := [] } "t1" "c1",
      m.matched_entity_id = "E1" :=
  ((claim_C7_clustering envSimple storeTriple
    { entity_id := "cid", name := "Zed",
      entity_type := .organization, attributes := [] } "t1" "c1"
    _ _ _ (fun fs => by simp [envSimple]) rfl rfl rfl).2.2.2.1
    (by decide) (by decide)) 0 (by decide) (by decide)

/-! ## C8 — the attribute merge policy -/

theorem dictGet?_cons (p : String × PyVal) (d : Attrs) (k : String) :
    dictGet? (p :: d) k = if p.1 = k then some p.2 else dictGet? d k := by
  unfold dictGet?
  by_cases h : p.1 = k
  · have hf : List.find? (fun q : String × PyVal => decide (q.1 = k)) (p :: d) =
        some p :=
      List.find?_cons_of_pos _ (by simpa using h)
    rw [hf, if_pos h]
    rfl
  · have hf : List.find? (fun q : String × PyVal => decide (q.1 = k)) (p :: d) =
        List.find? (fun q : String × PyVal => decide (q.1 = k)) d :=
      List.find?_cons_of_neg _ (by simpa using h)
    rw [hf, if_neg h]

theorem dictGet?_append (d d' : Attrs) (k : String) :
    dictGet? (d ++ d') k = (dictGet? d k).or (dictGet? d' k) := by
  unfold dictGet?
  rw [List.find?_append]
  cases d.find? fun p => decide (p.1 = k) <;> rfl

theorem dictGet?_eq_none_iff (d : Attrs) (k : String) :
    dictGet? d k = none ↔ ∀ kv ∈ d, kv.1 ≠ k := by
  unfold dictGet?
  rw [Option.map_eq_none', List.find?_eq_none]
  constructor
  · intro h kv hkv
    exact fun hc => by simpa [hc] using h kv hkv
  · intro h kv hkv
    simpa using h kv hkv

theorem dictGet?_mem_keys (d : Attrs) (k : String) (v : PyVal)
    (h : dictGet? d k = some v) : k ∈ d.map Prod.fst := by
  unfold dictGet? at h
  cases hf : d.find? fun p => decide (p.1 = k) with
  | none => rw [hf] at h; exact absurd h (by simp)
  | some p =>
    have hfp := List.find?_some hf
    have hp : p.1 = k := of_decide_eq_true hfp
    have hmem := List.mem_of_find?_eq_some hf
    exact hp ▸ List.mem_map_of_mem Prod.fst hmem

theorem any_eq_false_of_get_none (d : Attrs) (k : String)
    (h : dictGet? d k = none) :
    (d.any fun p => decide (p.1 = k)) = false := by
  rw [Bool.eq_false_iff]
  intro hany
  rcases List.any_eq_true.mp hany with ⟨p, hp, hdec⟩
  exact (dictGet?_eq_none_iff d k).mp h p hp (of_decide_eq_true hdec)

theorem dictGet?_dictSet_self (d : Attrs) (k : String) (v : PyVal) :
    dictGet? (dictSet d k v) k = some v := by
  unfold dictSet
  by_cases hany : (d.any fun p => decide (p.1 = k)) = true
  · rw [if_pos hany]
    have hpres : ∀ p : String × PyVal,
        decide ((if p.1 = k then (k, v) else p).1 = k) = decide (p.1 = k) := by
      intro p
      by_cases hp : p.1 = k
      · rw [if_pos hp]
        simp [hp]
      · rw [if_neg hp]
    have hmap := find?_map_pres (fun p : String × PyVal =>
        if p.1 = k then (k, v) else p)
      (fun p : String × PyVal => decide (p.1 = k)) hpres d
    unfold dictGet?
    rw [hmap]
    cases hf : d.find? fun p => decide (p.1 = k) with
    | none =>
      rcases List.any_eq_true.mp hany with ⟨p, hp, hdec⟩
      exact absurd hdec (by
        have := List.find?_eq_none.mp hf p hp
        simpa using this)
    | some p =>
      have hfp := List.find?_some hf
      have hp : p.1 = k := of_decide_eq_true hfp
      show some ((if p.1 = k then (k, v) else p).2) = some v
      rw [if_pos hp]
  · rw [if_neg hany]
    unfold dictGet?
    rw [List.find?_append]
    have hnone : (d.find? fun p => decide (p.1 = k)) = none := by
      rw [List.find?_eq_none]
      intro p hp hdec
      exact hany (List.any_eq_true.mpr ⟨p, hp, hdec⟩)
    rw [hnone]
    have h1 : List.find? (fun p : String × PyVal => decide (p.1 = k)) [(k, v)] =
        some (k, v) :=
      List.find?_cons_of_pos _ (by simp)
    show (List.find? (fun p : String × PyVal => decide (p.1 = k)) [(k, v)]).map
        Prod.snd = some v
    rw [h1]
    rfl

theorem dictGet?_dictSet_ne (d : Attrs) (k k' : String) (v : PyVal)
    (h : k' ≠ k) : dictGet? (dictSet d k' v) k = dictGet? d k := by
  unfold dictSet
  by_cases hany : (d.any fun p => decide (p.1 = k')) = true
  · rw [if_pos hany]
    have hpres : ∀ p : String × PyVal,
        decide ((if p.1 = k' then (k', v) else p).1 = k) = decide (p.1 = k) := by
      intro p
      by_cases hp : p.1 = k'
      · rw [if_pos hp]
        show decide (k' = k) = decide (p.1 = k)
        rw [hp]
      · rw [if_neg hp]
    have hmap := find?_map_pres (fun p : String × PyVal =>
        if p.1 = k' then (k', v) else p)
      (fun p : String × PyVal => decide (p.1 = k)) hpres d
    unfold dictGet?
    rw [hmap]
    cases hf : d.find? fun p => decide (p.1 = k) with
    | none => rfl
    | some p =>
      have hfp := List.find?_some hf
      have hp : p.1 = k := of_decide_eq_true hfp
      show some ((if p.1 = k' then (k', v) else p).2) = some p.2
      rw [if_neg (by rw [hp]; exact fun hc => h hc.symm)]
  · rw [if_neg hany]
    unfold dictGet?
    rw [List.find?_append]
    have hnone : (List.find? (fun p : String × PyVal =>
        decide (p.1 = k)) [(k', v)]) = none := by
      rw [List.find?_eq_none]
      intro p hp hdec
      rw [List.mem_singleton] at hp
      subst hp
      exact h (of_decide_eq_true hdec)
    rw [hnone]
    cases d.find? fun p => decide (p.1 = k) <;> rfl

theorem get_merge_step_ne (e : Attrs) (kv : String × PyVal) (k : String)
    (h : kv.1 ≠ k) : dictGet? (merge_step e kv) k = dictGet? e k := by
  unfold merge_step
  cases dictGet? e kv.1 with
  | none => exact dictGet?_dictSet_ne e k kv.1 kv.2 h
  | some old =>
    dsimp only
    by_cases hf : old.isFalsy
    · rw [if_pos hf]
      exact dictGet?_dictSet_ne e k kv.1 kv.2 h
    · rw [if_neg hf]
      cases kv.2 with
      | scalar v => rfl
      | list vs =>
        cases old with
        | scalar o => rfl
        | list os => exact dictGet?_dictSet_ne e k kv.1 _ h

theorem get_merge_step_self (e : Attrs) (kv : String × PyVal) :
    dictGet? (merge_step e kv) kv.1 =
      match dictGet? e kv.1 with
      | none => some kv.2
      | some old =>
        if old.isFalsy then some kv.2
        else
          match kv.2, old with
          | .list vs, .list os => some (.list (pySetUnion os vs))
          | _, _ => some old := by
  unfold merge_step
  cases hget : dictGet? e kv.1 with
  | none => exact dictGet?_dictSet_self e kv.1 kv.2
  | some old =>
    dsimp only
    by_cases hf : old.isFalsy
    · rw [if_pos hf, if_pos hf]
      exact dictGet?_dictSet_self e kv.1 kv.2
    · rw [if_neg hf, if_neg hf]
      cases hv : kv.2 with
      | scalar v =>
        show dictGet? e kv.1 = some old
        exact hget
      | list vs =>
        cases old with
        | scalar o =>
          show dictGet? e kv.1 = some (.scalar o)
          exact hget
        | list os => exact dictGet?_dictSet_self e kv.1 _

theorem get_merge_not_mem (new : Attrs) :
    ∀ (e : Attrs) (k : String), (∀ kv ∈ new, kv.1 ≠ k) →
      dictGet? (merge_attributes e new) k = dictGet? e k := by
  induction new with
  | nil => intro e k _; rfl
  | cons kv rest ih =>
    intro e k h
    show dictGet? (merge_attributes (merge_step e kv) rest) k = dictGet? e k
    rw [ih (merge_step e kv) k fun kv' hkv' => h kv' (List.mem_cons_of_mem kv hkv')]
    exact get_merge_step_ne e kv k (h kv (List.mem_cons_self kv rest))

theorem get_merge_attributes (new : Attrs) :
    ∀ (e : Attrs) (k : String) (v : PyVal),
      (new.map Prod.fst).Nodup → dictGet? new k = some v →
      dictGet? (merge_attributes e new) k =
        match dictGet? e k with
        | none => some v
        | some old =>
          if old.isFalsy then some v
          else
            match v, old with
            | .list vs, .list os => some (.list (pySetUnion os vs))
            | _, _ => some old := by
  induction new with
  | nil =>
    intro e k v _ hget
    exact absurd hget (by simp [dictGet?])
  | cons kv rest ih =>
    intro e k v hnd hget
    rw [List.map_cons, List.nodup_cons] at hnd
    rw [dictGet?_cons] at hget
    show dictGet? (merge_attributes (merge_step e kv) rest) k = _
    by_cases hk : kv.1 = k
    · rw [if_pos hk] at hget
      have hv : v = kv.2 := (Option.some.inj hget).symm
      subst hv
      have hrest : ∀ kv' ∈ rest, kv'.1 ≠ k := by
        intro kv' hkv' hc
        exact hnd.1 (hk ▸ hc ▸ List.mem_map_of_mem Prod.fst hkv')
      rw [get_merge_not_mem rest (merge_step e kv) k hrest, ← hk]
      exact get_merge_step_self e kv
    · rw [if_neg hk] at hget
      have := ih (merge_step e kv) k v hnd.2 hget
      rw [get_merge_step_ne e kv k hk] at this
      exact this

theorem mem_pySetUnion (os vs : List PyScalar) (x : PyScalar) :
    x ∈ pySetUnion os vs ↔ x ∈ os ∨ x ∈ vs := by
  unfold pySetUnion
  rw [List.mem_dedup, List.mem_append]

theorem merge_fresh : ∀ (a : Attrs), ∀ acc : Attrs,
    (∀ kv ∈ a, dictGet? acc kv.1 = none) → (a.map Prod.fst).Nodup →
    merge_attributes acc a = acc ++ a := by
  intro a
  induction a with
  | nil =>
    intro acc _ _
    rw [List.append_nil]
    rfl
  | cons kv rest ih =>
    intro acc hfresh hnd
    rw [List.map_cons, List.nodup_cons] at hnd
    have hstep : merge_step acc kv = acc ++ [kv] := by
      unfold merge_step
      rw [hfresh kv (List.mem_cons_self kv rest)]
      unfold dictSet
      rw [if_neg (by
        rw [any_eq_false_of_get_none acc kv.1
          (hfresh kv (List.mem_cons_self kv rest))]
        exact fun hc => Bool.false_ne_true hc)]
    show merge_attributes (merge_step acc kv) rest = acc ++ kv :: rest
    rw [hstep, ih (acc ++ [kv]) ?_ hnd.2]
    · rw [List.append_assoc]
      rfl
    · intro kv' hkv'
      rw [dictGet?_append]
      rw [hfresh kv' (List.mem_cons_of_mem kv hkv')]
      have hne : kv.1 ≠ kv'.1 := by
        intro hc
        exact hnd.1 (hc ▸ List.mem_map_of_mem Prod.fst hkv')
      show (dictGet? [kv] kv'.1) = none
      rw [dictGet?_cons]
      rw [if_neg hne]
      rfl

/-- C8: the per-key merge policy of `_merge_entity_data` — adopt the new
value when the key is missing or its current value is falsy, set-union
two lists, otherwise keep the existing value; keys absent from the new
map are untouched; the list union is duplicate-free and contains exactly
the elements of both sides; and merging two disjoint-key maps into an
empty entity yields their union in either order. -/
theorem claim_C8_merge (existing new : Attrs)
    (hnd : (new.map Prod.fst).Nodup) :
    (∀ k v, dictGet? new k = some v →
      dictGet? (merge_attributes existing new) k =
        match dictGet? existing k with
        | none => some v
        | some old =>
          if old.isFalsy then some v
          else
            match v, old with
            | .list vs, .list os => some (.list (pySetUnion os vs))
            | _, _ => some old)
    ∧ (∀ k, dictGet? new k = none →
        dictGet? (merge_attributes existing new) k = dictGet? existing k)
    ∧ (∀ os vs : List PyScalar, (pySetUnion os vs).Nodup ∧
        ∀ x, x ∈ pySetUnion os vs ↔ x ∈ os ∨ x ∈ vs)
    ∧ (∀ a b : Attrs, (a.map Prod.fst).Nodup → (b.map Prod.fst).Nodup →
        (∀ k, ¬(k ∈ a.map Prod.fst ∧ k ∈ b.map Prod.fst)) →
        ∀ k, dictGet? (merge_attributes (merge_attributes [] a) b) k =
            (dictGet? a k).or (dictGet? b k) ∧
          dictGet? (merge_attributes (merge_attributes [] b) a) k =
            (dictGet? a k).or (dictGet? b k)) := by
  refine ⟨fun k v hget => get_merge_attributes new existing k v hnd hget,
    ?_, fun os vs => ⟨List.nodup_dedup _, mem_pySetUnion os vs⟩, ?_⟩
  · intro k hget
    exact get_merge_not_mem new existing k ((dictGet?_eq_none_iff new k).mp hget)
  · intro a b hnda hndb hdisj k
    have hma : merge_attributes [] a = a := by
      rw [merge_fresh a [] (fun kv _ => rfl) hnda]
      rfl
    have hmb : merge_attributes [] b = b := by
      rw [merge_fresh b [] (fun kv _ => rfl) hndb]
      rfl
    have hab : merge_attributes a b = a ++ b := by
      apply merge_fresh b a _ hndb
      intro kv hkv
      rw [dictGet?_eq_none_iff]
      intro kv' hkv' hc
      exact hdisj kv.1 ⟨hc ▸ List.mem_map_of_mem Prod.fst hkv',
        List.mem_map_of_mem Prod.fst hkv⟩
    have hba : merge_attributes b a = b ++ a := by
      apply merge_fresh a b _ hnda
      intro kv hkv
      rw [dictGet?_eq_none_iff]
      intro kv' hkv' hc
      exact hdisj kv'.1 ⟨hc ▸ List.mem_map_of_mem Prod.fst hkv,
        List.mem_map_of_mem Prod.fst hkv'⟩
    rw [hma, hmb, hab, hba, dictGet?_append, dictGet?_append]
    refine ⟨rfl, ?_⟩
    cases hga : dictGet? a k with
    | none => rw [Option.or_none, Option.none_or]
    | some v =>
      have hbnone : dictGet? b k = none := by
        rw [dictGet?_eq_none_iff]
        intro kv hkv hc
        exact hdisj k ⟨dictGet?_mem_keys a k v hga,
          hc ▸ List.mem_map_of_mem Prod.fst hkv⟩
      rw [hbnone, Option.none_or, Option.or_none]

/-- C8 witness: merging `{b: 2}` into `{a: 1}` adopts the missing key. -/
theorem claim_C8_witness :
    dictGet? (merge_attributes [("a", PyVal.scalar (PyScalar.int 1))]
        [("b", PyVal.scalar (PyScalar.int 2))]) "b" =
      some (PyVal.scalar (PyScalar.int 2)) :=
  (claim_C8_merge [("a", PyVal.scalar (PyScalar.int 1))]
    [("b", PyVal.scalar (PyScalar.int 2))] (by decide)).1 "b"
    (PyVal.scalar (PyScalar.int 2)) (by decide)

/-! ## C3 — the resolution decision -/

theorem find_matches_exact (env : ResolveEnv) (st : ResolutionState)
    (cand : EntityCandidate) (tenant cell : String) :
    find_matches env st cand tenant cell .exact =
      .ok (sortByConfDesc (exact_match st.store cand tenant cell), st) := rfl

theorem find_matches_fuzzy (env : ResolveEnv) (st : ResolutionState)
    (cand : EntityCandidate) (tenant cell : String) :
    find_matches env st cand tenant cell .fuzzy =
      .ok (sortByConfDesc (fuzzy_match env st.store cand tenant cell), st) := rfl

theorem find_matches_clustering (env : ResolveEnv) (st : ResolutionState)
    (cand : EntityCandidate) (tenant cell : String) :
    find_matches env st cand tenant cell .ml_clustering =
      .ok (sortByConfDesc (ml_clustering_match env st.store cand tenant cell),
        st) := rfl

theorem find_matches_semantic (env : ResolveEnv) (st : ResolutionState)
    (cand : EntityCandidate) (tenant cell : String) :
    find_matches env st cand tenant cell .semantic =
      (semantic_match env st cand tenant cell).bind fun p =>
        .ok (sortByConfDesc p.1, p.2) := rfl

theorem find_matches_hybrid (env : ResolveEnv) (st : ResolutionState)
    (cand : EntityCandidate) (tenant cell : String) :
    find_matches env st cand tenant cell .hybrid =
      (semantic_match env st cand tenant cell).bind fun p =>
        .ok (sortByConfDesc (deduplicate_matches
          (exact_match st.store cand tenant cell ++
            fuzzy_match env st.store cand tenant cell ++ p.1)), p.2) := rfl

theorem find_matches_sorted (env : ResolveEnv) (st : ResolutionState)
    (cand : EntityCandidate) (tenant cell : String) (method : MatchMethod)
    (ms : List EntityMatch) (st1 : ResolutionState)
    (hfind : find_matches env st cand tenant cell method = .ok (ms, st1)) :
    ms.Pairwise fun a b => b.confidence_score ≤ a.confidence_score := by
  cases method with
  | exact =>
    rw [find_matches_exact, Except.ok.injEq, Prod.mk.injEq] at hfind
    rw [← hfind.1]
    exact sorted_sortByConfDesc _
  | fuzzy =>
    rw [find_matches_fuzzy, Except.ok.injEq, Prod.mk.injEq] at hfind
    rw [← hfind.1]
    exact sorted_sortByConfDesc _
  | ml_clustering =>
    rw [find_matches_clustering, Except.ok.injEq, Prod.mk.injEq] at hfind
    rw [← hfind.1]
    exact sorted_sortByConfDesc _
  | semantic =>
    rw [find_matches_semantic] at hfind
    cases hsem : semantic_match env st cand tenant cell with
    | error e =>
      rw [hsem] at hfind
      exact absurd hfind (by simp [Except.bind])
    | ok p =>
      rw [hsem] at hfind
      simp only [Except.bind] at hfind
      rw [Except.ok.injEq, Prod.mk.injEq] at hfind
      rw [← hfind.1]
      exact sorted_sortByConfDesc _
  | hybrid =>
    rw [find_matches_hybrid] at hfind
    cases hsem : semantic_match env st cand tenant cell with
    | error e =>
      rw [hsem] at hfind
      exact absurd hfind (by simp [Except.bind])
    | ok p =>
      rw [hsem] at hfind
      simp only [Except.bind] at hfind
      rw [Except.ok.injEq, Prod.mk.injEq] at hfind
      rw [← hfind.1]
      exact sorted_sortByConfDesc _

theorem map_id_merge_store (store : List StoredEntity) (eid tenant cell : String)
    (attrs : Attrs) :
    ((store.map fun x =>
      if x.id = eid ∧ x.tenant_id = tenant ∧ x.cell_id = cell then
        { x with attributes := attrs }
      else x).map StoredEntity.id) = store.map StoredEntity.id := by
  rw [List.map_map]
  apply List.map_congr_left
  intro x _
  by_cases hc : x.id = eid ∧ x.tenant_id = tenant ∧ x.cell_id = cell
  · rw [Function.comp_apply, if_pos hc]
  · rw [Function.comp_apply, if_neg hc]

/-- C3: given a successful candidate preparation and a successful
matching phase producing the (sorted) aggregated list `ms`: (a) when the
list is non-empty, its top entry reaches the 0.85 threshold and the
matched entity exists in the scoped store, the outcome is `matched` with
that entry's id, confidence and method, the merged entity dictionary,
the next up to 4 entries as alternatives, and a store holding exactly
the same entity ids (an attribute merge, never a create); (b) when every
entry is below the threshold (in particular when the list is empty) and
creation was requested, the outcome is `created` with a fresh entity
appended to the store and up to 5 alternatives; (c) same premise with
creation declined: the outcome is `no_match` with up to 5 alternatives
and an untouched store. -/
theorem claim_C3_decision (env : ResolveEnv) (st : ResolutionState)
    (candId newId : String) (ed : EntityData) (tenant cell : String)
    (method : MatchMethod) (create_if_not_found : Bool)
    (cand : EntityCandidate) (ms : List EntityMatch) (st1 : ResolutionState)
    (hprep : prepare_candidate env candId ed method = .ok cand)
    (hfind : find_matches env st cand tenant cell method = .ok (ms, st1)) :
    (∀ m rest, ms = m :: rest → similarity_threshold ≤ m.confidence_score →
      ∀ e, (st1.store.filter fun x =>
          decide (x.id = m.matched_entity_id ∧ x.tenant_id = tenant ∧
            x.cell_id = cell)).head? = some e →
        ∃ st2, resolve_entity env st candId newId ed tenant cell method
            create_if_not_found =
          (.matched
            { id := m.matched_entity_id, name := e.name,
              entity_type := e.entity_type,
              attributes := merge_attributes e.attributes ed.attributes,
              tenant_id := tenant, cell_id := cell }
            m.confidence_score m.match_method (rest.take 4), st2) ∧
          st2.store.map StoredEntity.id = st1.store.map StoredEntity.id)
    ∧ ((∀ m ∈ ms, m.confidence_score < similarity_threshold) →
        create_if_not_found = true →
        resolve_entity env st candId newId ed tenant cell method
            create_if_not_found =
          (.created
            { id := newId, name := cand.name,
              entity_type := cand.entity_type.value,
              attributes := cand.attributes,
              tenant_id := tenant, cell_id := cell } 1 (ms.take 5),
           { st1 with store := st1.store ++
              [{ id := newId, name := cand.name,
                 entity_type := cand.entity_type.value,
                 attributes := cand.attributes,
                 tenant_id := tenant, cell_id := cell }] }))
    ∧ ((∀ m ∈ ms, m.confidence_score < similarity_threshold) →
        create_if_not_found = false →
        resolve_entity env st candId newId ed tenant cell method
            create_if_not_found = (.no_match (ms.take 5), st1)) := by
  have hred : resolve_entity env st candId newId ed tenant cell method
      create_if_not_found =
      (match resolution_decision st1 ed cand newId tenant cell
          create_if_not_found ms with
       | .ok r => r
       | .error e => (.error e, st)) := by
    unfold resolve_entity
    rw [hprep]
    show (match (find_matches env st cand tenant cell method >>= fun p =>
        resolution_decision p.2 ed cand newId tenant cell
          create_if_not_found p.1 :
        Except String (Outcome × ResolutionState)) with
      | .ok r => r
      | .error e => (.error e, st)) = _
    rw [hfind]
    rfl
  have hsorted := find_matches_sorted env st cand tenant cell method ms st1 hfind
  refine ⟨?_, ?_, ?_⟩
  · intro m rest hms hth e hfound
    subst hms
    have hmax : pyMax m rest = m := by
      apply pyMax_sorted
      intro x hx
      exact (List.pairwise_cons.mp hsorted).1 x hx
    have hmerge : merge_entity_data st1.store m.matched_entity_id ed tenant cell =
        .ok ({ id := m.matched_entity_id, name := e.name,
               entity_type := e.entity_type,
               attributes := merge_attributes e.attributes ed.attributes,
               tenant_id := tenant, cell_id := cell },
          st1.store.map fun x =>
            if x.id = m.matched_entity_id ∧ x.tenant_id = tenant ∧
                x.cell_id = cell then
              { x with attributes := merge_attributes e.attributes ed.attributes }
            else x) := by
      unfold merge_entity_data
      rw [hfound]
    refine ⟨{ st1 with store := st1.store.map fun x =>
        if x.id = m.matched_entity_id ∧ x.tenant_id = tenant ∧
            x.cell_id = cell then
          { x with attributes := merge_attributes e.attributes ed.attributes }
        else x }, ?_,
      map_id_merge_store st1.store m.matched_entity_id tenant cell
        (merge_attributes e.attributes ed.attributes)⟩
    rw [hred]
    unfold resolution_decision
    dsimp only
    rw [hmax, if_pos hth, hmerge]
    rfl
  · intro hbelow hcreate
    subst hcreate
    rw [hred]
    unfold resolution_decision
    cases ms with
    | nil => rfl
    | cons m rest =>
      dsimp only
      rw [if_neg (not_le_of_lt (hbelow (pyMax m rest) (pyMax_mem m rest)))]
      rfl
  · intro hbelow hcreate
    subst hcreate
    rw [hred]
    unfold resolution_decision
    cases ms with
    | nil => rfl
    | cons m rest =>
      dsimp only
      rw [if_neg (not_le_of_lt (hbelow (pyMax m rest) (pyMax_mem m rest)))]
      rfl

unseal Rat.mul Rat.inv Rat.add Rat.sub in
/-- C3 witness: a same-name (up to case) observation fuzzy-resolves to a
`matched` outcome that attribute-merges the stored entity and leaves the
store's ids unchanged. -/
theorem claim_C3_witness :
    ∃ st2, resolve_entity envSimple { store := [acmeUpper], cache := [] }
        "cid" "nid" { name := "ACME CORP", entity_type := "organization" }
        "t1" "c1" .fuzzy true =
      (.matched
        { id := "E1", name := "ACME CORP", entity_type := "organization",
          attributes := merge_attributes acmeUpper.attributes [],
          tenant_id := "t1", cell_id := "c1" }
        1 .fuzzy [], st2) ∧
      st2.store.map StoredEntity.id =
        ([acmeUpper] : List StoredEntity).map StoredEntity.id :=
  (claim_C3_decision envSimple { store := [acmeUpper], cache := [] }
    "cid" "nid" { name := "ACME CORP", entity_type := "organization" }
    "t1" "c1" .fuzzy true
    { entity_id := "cid", name := "ACME CORP", entity_type := .organization,
      attributes := [], embedding := none, source_confidence := 1 }
    [{ candidate_entity_id := "cid", matched_entity_id := "E1",
       confidence_score := 1, match_method := .fuzzy }]
    { store := [acmeUpper], cache := [] }
    (by decide) (by decide)).1
    { candidate_entity_id := "cid", matched_entity_id := "E1",
      confidence_score := 1, match_method := .fuzzy }
    [] rfl (by decide) acmeUpper (by decide)

/-! ## C2 — tenant/cell isolation -/

/-- The ids of the store entities belonging to one `(tenant, cell)`
scope: the set a correctly-isolated request may reference. -/
def scopedIds (store : List StoredEntity) (tenant cell : String) : List String :=
  (store.filter fun e => decide (e.tenant_id = tenant ∧ e.cell_id = cell)).map
    StoredEntity.id

theorem typeQuery_scoped (store : List StoredEntity) (ty tenant cell : String)
    (limit : Nat) :
    ∀ e ∈ typeQuery store ty tenant cell limit,
      e.id ∈ scopedIds store tenant cell := by
  intro e he
  unfold typeQuery at he
  have hmem := List.mem_of_mem_take he
  rw [List.mem_filter] at hmem
  rcases of_decide_eq_true hmem.2 with ⟨_, h2, h3⟩
  unfold scopedIds
  apply List.mem_map_of_mem
  rw [List.mem_filter]
  exact ⟨hmem.1, decide_eq_true ⟨h2, h3⟩⟩

theorem exact_match_scoped (store : List StoredEntity)
    (cand : EntityCandidate) (tenant cell : String) :
    ∀ m ∈ exact_match store cand tenant cell,
      m.matched_entity_id ∈ scopedIds store tenant cell := by
  intro m hm
  unfold exact_match at hm
  rcases List.mem_map.mp hm with ⟨e, he, hme⟩
  unfold exactQuery at he
  have hmem := List.mem_of_mem_take he
  rw [List.mem_filter] at hmem
  rcases of_decide_eq_true hmem.2 with ⟨_, _, h3, h4⟩
  rw [← hme]
  unfold scopedIds
  apply List.mem_map_of_mem
  rw [List.mem_filter]
  exact ⟨hmem.1, decide_eq_true ⟨h3, h4⟩⟩

theorem fuzzy_match_scoped (env : ResolveEnv) (store : List StoredEntity)
    (cand : EntityCandidate) (tenant cell : String) :
    ∀ m ∈ fuzzy_match env store cand tenant cell,
      m.matched_entity_id ∈ scopedIds store tenant cell := by
  intro m hm
  unfold fuzzy_match at hm
  rcases List.mem_filterMap.mp hm with ⟨e, he, hfe⟩
  by_cases hcond : fuzzy_threshold ≤ env.fuzzScore (pyLower cand.name) (pyLower e.name)
  · rw [if_pos hcond] at hfe
    rw [← Option.some.inj hfe]
    exact typeQuery_scoped store cand.entity_type.value tenant cell 100 e he
  · rw [if_neg hcond] at hfe
    exact absurd hfe (by simp)

theorem ml_clustering_match_scoped (env : ResolveEnv)
    (store : List StoredEntity) (cand : EntityCandidate)
    (tenant cell : String)
    (hlen : ∀ fs, (env.fitPredict fs).length = fs.length) :
    ∀ m ∈ ml_clustering_match env store cand tenant cell,
      m.matched_entity_id ∈ scopedIds store tenant cell := by
  intro m hm
  unfold ml_clustering_match at hm
  set ed := typeQuery store cand.entity_type.value tenant cell 500 with hed
  set fs := (ed.map fun e => extract_features e.name e.attributes) ++
    [extract_features cand.name cand.attributes] with hfs
  set labels := env.fitPredict fs with hlabels
  set c := labels.getLastD (-1) with hc
  have hlablen : labels.length = ed.length + 1 := by
    rw [hlabels, hlen, hfs, List.length_append, List.length_map]
    rfl
  by_cases hlt : ed.length < 3
  · rw [if_pos hlt] at hm
    exact absurd hm (List.not_mem_nil m)
  · rw [if_neg hlt] at hm
    simp only [← hfs, ← hlabels, ← hc] at hm
    by_cases hne : c ≠ -1
    · rw [if_pos hne] at hm
      have hlt2 : ed.length < labels.length := by
        rw [hlablen]
        exact Nat.lt_succ_self _
      have hpn : labels.getD ed.length 0 = c := by
        rw [hc, List.getD_eq_getElem?_getD, List.getLastD_eq_getLast?,
          List.getLast?_eq_getElem?, hlablen,
          show ed.length + 1 - 1 = ed.length from rfl,
          List.getElem?_eq_getElem hlt2]
        rfl
      have hfilter : ((List.range labels.length).filter fun i =>
          decide (labels.getD i 0 = c)) =
          ((List.range ed.length).filter fun i =>
            decide (labels.getD i 0 = c)) ++ [ed.length] := by
        rw [hlablen, List.range_succ, List.filter_append]
        have hdec : (decide (labels.getD ed.length 0 = c)) = true :=
          decide_eq_true hpn
        rw [List.filter_singleton, hdec]
        rfl
      rw [hfilter, List.dropLast_concat] at hm
      rcases List.mem_map.mp hm with ⟨idx, hidx, hfm⟩
      rw [List.mem_filter, List.mem_range] at hidx
      have hidlt : idx < (ed.map StoredEntity.id).length := by
        rw [List.length_map]
        exact hidx.1
      have hmid : m.matched_entity_id = (ed.map StoredEntity.id).getD idx "" := by
        rw [← hfm]
        show (ed.map StoredEntity.id ++ [cand.entity_id]).getD idx "" = _
        exact List.getD_append _ _ _ _ hidlt
      rw [hmid, List.getD_eq_getElem (ed.map StoredEntity.id) "" hidlt]
      have := List.getElem_mem hidlt
      rcases List.mem_map.mp this with ⟨e, he, hide⟩
      rw [← hide]
      exact typeQuery_scoped store cand.entity_type.value tenant cell 500 e he
    · rw [if_neg hne] at hm
      exact absurd hm (List.not_mem_nil m)

theorem except_bind_ok {α β : Type} (x : Except String α)
    (f : α → Except String β) (r : β) (h : (x >>= f) = .ok r) :
    ∃ v, x = .ok v ∧ f v = .ok r := by
  cases x with
  | error e => exact absurd h (by simp [Bind.bind, Except.bind])
  | ok v =>
    refine ⟨v, rfl, ?_⟩
    simpa [Bind.bind, Except.bind] using h

theorem semantic_match_scoped (env : ResolveEnv) (st : ResolutionState)
    (cand : EntityCandidate) (tenant cell : String)
    (sms : List EntityMatch) (st2 : ResolutionState)
    (hcache : ∀ data, cacheGet? st.cache
        (cacheKey cand.entity_type tenant cell) = some data →
      ∀ ent ∈ data.entities, ent.id ∈ scopedIds st.store tenant cell)
    (hsem : semantic_match env st cand tenant cell = .ok (sms, st2)) :
    ∀ m ∈ sms, m.matched_entity_id ∈ scopedIds st.store tenant cell := by
  unfold semantic_match at hsem
  cases hemb : cand.embedding with
  | none =>
    rw [hemb] at hsem
    dsimp only at hsem
    rw [Except.ok.injEq, Prod.mk.injEq] at hsem
    intro m hm
    rw [← hsem.1] at hm
    exact absurd hm (List.not_mem_nil m)
  | some emb =>
    rw [hemb] at hsem
    dsimp only at hsem
    rcases except_bind_ok _ _ _ hsem with ⟨p, hget, hsem2⟩
    obtain ⟨cached, st'⟩ := p
    dsimp only at hsem2
    rw [Except.ok.injEq, Prod.mk.injEq] at hsem2
    have hents : ∀ ent ∈ cached.entities,
        ent.id ∈ scopedIds st.store tenant cell := by
      unfold get_cached_embeddings at hget
      cases hcc : cacheGet? st.cache (cacheKey cand.entity_type tenant cell) with
      | some data =>
        rw [hcc] at hget
        dsimp only at hget
        rw [Except.ok.injEq, Prod.mk.injEq] at hget
        intro ent hent
        exact hcache data hcc ent (hget.1 ▸ hent)
      | none =>
        rw [hcc] at hget
        unfold generate_and_cache_embeddings at hget
        by_cases hres : (typeQuery st.store cand.entity_type.value tenant cell
            1000).isEmpty
        · rw [if_pos hres] at hget
          rw [Except.ok.injEq, Prod.mk.injEq] at hget
          intro ent hent
          rw [← hget.1] at hent
          exact absurd hent (List.not_mem_nil ent)
        · rw [if_neg hres] at hget
          dsimp only at hget
          rcases except_bind_ok _ _ _ hget with ⟨embs, _, hget2⟩
          rw [Except.ok.injEq, Prod.mk.injEq] at hget2
          intro ent hent
          rw [← hget2.1] at hent
          rcases List.mem_map.mp hent with ⟨e, he, hee⟩
          rw [← hee]
          exact typeQuery_scoped st.store cand.entity_type.value tenant cell
            1000 e he
    intro m hm
    rw [← hsem2.1] at hm
    rcases List.mem_filterMap.mp hm with ⟨q, hq, hfq⟩
    by_cases hth : similarity_threshold ≤ q.1
    · rw [if_pos hth] at hfq
      rw [← Option.some.inj hfq]
      exact hents q.2 (List.of_mem_zip hq).2
    · rw [if_neg hth] at hfq
      exact absurd hfq (by simp)

/-- C2: under the DBSCAN length contract and a cache whose entry for this
request's key holds only entities of this `(tenant, cell)` scope (the
only entries the service itself ever writes there), every match produced
by `_find_matches` — any strategy — references an entity id of the
requested scope; consequently, when store ids are unique, no match ever
references an entity stored under a different tenant or cell, even one
with an identical name and type. -/
theorem claim_C2_tenant_isolation (env : ResolveEnv) (st : ResolutionState)
    (cand : EntityCandidate) (tenant cell : String) (method : MatchMethod)
    (ms : List EntityMatch) (st1 : ResolutionState)
    (hlen : ∀ fs, (env.fitPredict fs).length = fs.length)
    (hcache : ∀ data, cacheGet? st.cache
        (cacheKey cand.entity_type tenant cell) = some data →
      ∀ ent ∈ data.entities, ent.id ∈ scopedIds st.store tenant cell)
    (hfind : find_matches env st cand tenant cell method = .ok (ms, st1)) :
    (∀ m ∈ ms, m.matched_entity_id ∈ scopedIds st.store tenant cell)
    ∧ ((st.store.map StoredEntity.id).Nodup →
        ∀ m ∈ ms, ∀ e ∈ st.store,
          e.tenant_id ≠ tenant ∨ e.cell_id ≠ cell →
          m.matched_entity_id ≠ e.id) := by
  have hscoped : ∀ m ∈ ms, m.matched_entity_id ∈ scopedIds st.store tenant cell := by
    cases method with
    | exact =>
      rw [find_matches_exact, Except.ok.injEq, Prod.mk.injEq] at hfind
      intro m hm
      rw [← hfind.1, mem_sortByConfDesc] at hm
      exact exact_match_scoped st.store cand tenant cell m hm
    | fuzzy =>
      rw [find_matches_fuzzy, Except.ok.injEq, Prod.mk.injEq] at hfind
      intro m hm
      rw [← hfind.1, mem_sortByConfDesc] at hm
      exact fuzzy_match_scoped env st.store cand tenant cell m hm
    | ml_clustering =>
      rw [find_matches_clustering, Except.ok.injEq, Prod.mk.injEq] at hfind
      intro m hm
      rw [← hfind.1, mem_sortByConfDesc] at hm
      exact ml_clustering_match_scoped env st.store cand tenant cell hlen m hm
    | semantic =>
      rw [find_matches_semantic] at hfind
      cases hsem : semantic_match env st cand tenant cell with
      | error e =>
        rw [hsem] at hfind
        exact absurd hfind (by simp [Except.bind])
      | ok p =>
        rw [hsem] at hfind
        simp only [Except.bind] at hfind
        rw [Except.ok.injEq, Prod.mk.injEq] at hfind
        intro m hm
        rw [← hfind.1, mem_sortByConfDesc] at hm
        exact semantic_match_scoped env st cand tenant cell p.1 p.2 hcache
          (by rw [hsem]) m hm
    | hybrid =>
      rw [find_matches_hybrid] at hfind
      cases hsem : semantic_match env st cand tenant cell with
      | error e =>
        rw [hsem] at hfind
        exact absurd hfind (by simp [Except.bind])
      | ok p =>
        rw [hsem] at hfind
        simp only [Except.bind] at hfind
        rw [Except.ok.injEq, Prod.mk.injEq] at hfind
        intro m hm
        rw [← hfind.1, mem_sortByConfDesc] at hm
        have hm2 := mem_deduplicate _ m hm
        rcases List.mem_append.mp hm2 with hm3 | hm3
        · rcases List.mem_append.mp hm3 with hm4 | hm4
          · exact exact_match_scoped st.store cand tenant cell m hm4
          · exact fuzzy_match_scoped env st.store cand tenant cell m hm4
        · exact semantic_match_scoped env st cand tenant cell p.1 p.2 hcache
            (by rw [hsem]) m hm3
  refine ⟨hscoped, ?_⟩
  intro hnd m hm e he hdiff hid
  have hin := hscoped m hm
  unfold scopedIds at hin
  rcases List.mem_map.mp hin with ⟨e', he', hide⟩
  rw [List.mem_filter] at he'
  rcases of_decide_eq_true he'.2 with ⟨ht, hc⟩
  have hee : e' = e := by
    apply List.inj_on_of_nodup_map hnd he'.1 he
    rw [hide, hid]
  rcases hdiff with hdiff | hdiff
  · exact hdiff (by rw [← hee]; exact ht)
  · exact hdiff (by rw [← hee]; exact hc)

/-- A stored entity of a different tenant, for the isolation witness. -/
def acmeForeign : StoredEntity :=
  { id := "F1"
    name := "ACME CORP"
    entity_type := "organization"
    attributes := []
    tenant_id := "t2"
    cell_id := "c1" }

/-- The fuzzy match produced for `acmeUpper` in the isolation witness. -/
def fuzzyE1 : EntityMatch :=
  { candidate_entity_id := "cid"
    matched_entity_id := "E1"
    confidence_score := 1
    match_method := MatchMethod.fuzzy }

unseal Rat.mul Rat.inv Rat.add Rat.sub in
/-- C2 witness: a fuzzy resolution in a two-tenant store only references
the requesting tenant's entity. -/
theorem claim_C2_witness :
    (∀ m ∈ [fuzzyE1],
      m.matched_entity_id ∈ scopedIds [acmeUpper, acmeForeign] "t1" "c1") ∧
    ((([acmeUpper, acmeForeign] : List StoredEntity).map StoredEntity.id).Nodup →
      ∀ m ∈ [fuzzyE1], ∀ e ∈ [acmeUpper, acmeForeign],
        e.tenant_id ≠ "t1" ∨ e.cell_id ≠ "c1" →
        m.matched_entity_id ≠ e.id) :=
  claim_C2_tenant_isolation envSimple
    { store := [acmeUpper, acmeForeign], cache := [] }
    { entity_id := "cid", name := "ACME CORP", entity_type := .organization,
      attributes := [], embedding := none, source_confidence := 1 }
    "t1" "c1" .fuzzy [fuzzyE1]
    { store := [acmeUpper, acmeForeign], cache := [] }
    (fun fs => by simp [envSimple])
    (fun data hdata => by simp [cacheGet?, List.find?] at hdata)
    (by decide)

end EntityRes
